import Mathlib

/-!
Verification of the image post-processing gulpfile.

The source is a Node/gulp pipeline built around three pieces:

* `readExif` - parses the output of `magick identify -format "..|.."` into a
  `MetadataRecord`, with APEX-unit fallbacks for the f-number and the
  exposure time (`rationalToFloat`, `Math.pow`, `toFixed`, `Math.round`);
* `addWatermark` - computes bar geometry from the probed image size and
  joins the present metadata fragments into the watermark text;
* the `resize-images` task - a per-file primary path (read EXIF, verify,
  normalise, resize twice, watermark, copy, cleanup) with a fallback path
  and an error-placeholder write when both fail.

Modelling conventions:

* JavaScript numbers are modelled by `JsNum`: a finite rational, `NaN`,
  or a signed infinity.  Double rounding of basic arithmetic is not
  modelled (exact rational arithmetic is used); the two transcendental
  calls `Math.pow(Math.SQRT2, x)` and `Math.pow(2, x)` are abstracted as
  function parameters (on finite arguments), since their values are
  irrational.  `Number.prototype.toFixed` and JS number-to-string are
  modelled in the normal (non-exponent-notation) range, which covers the
  photographic magnitudes this code processes.
* Strings are Lean `String`s; every operation the source uses
  (`trim`, `split`, `includes`, `replace(/\.0$/, '')`, template
  literals) is given its own structural definition over `String.data`
  so that all computations reduce in the kernel.
* The `resize-images` task is modelled as a function from an environment
  (which external steps succeed, and with what error message) to the list
  of performed actions, mirroring the `try`/`catch` structure line by line.
-/

/-! ## Characters, digits and whitespace -/

/-- The decimal digit characters, as produced by JS number printing. -/
def digitChar (k : ℕ) : Char :=
  match k with
  | 0 => '0' | 1 => '1' | 2 => '2' | 3 => '3' | 4 => '4'
  | 5 => '5' | 6 => '6' | 7 => '7' | 8 => '8' | _ => '9'

/-- Decimal digit test (the digits accepted by the JS decimal grammar). -/
def isDig (c : Char) : Bool :=
  decide (48 ≤ c.toNat ∧ c.toNat ≤ 57)

/-- Numeric value of a decimal digit character. -/
def digVal (c : Char) : ℕ := c.toNat - 48

/-- Whitespace stripped by `String.prototype.trim` (space, tab, LF, CR,
vertical tab, form feed, NBSP, BOM; exotic unicode spaces are omitted,
they cannot occur in `magick` output). -/
def jsIsWs (c : Char) : Bool :=
  decide (c.toNat = 32 ∨ c.toNat = 9 ∨ c.toNat = 10 ∨ c.toNat = 13 ∨
    c.toNat = 11 ∨ c.toNat = 12 ∨ c.toNat = 160 ∨ c.toNat = 65279)

/-- Fuel-driven decimal printer (most significant digit first); the fuel
makes the recursion structural so terms reduce in the kernel. -/
def natToCharsGo : ℕ → ℕ → List Char
  | 0, _ => []
  | fuel + 1, n =>
    if n < 10 then [digitChar n]
    else natToCharsGo fuel (n / 10) ++ [digitChar (n % 10)]

/-- Decimal digits of a natural number, as JS prints it. -/
def natToChars (n : ℕ) : List Char := natToCharsGo (n + 1) n

/-- Left-pad a digit string with zeros to a given width (used for the
fractional part of JS number printing). -/
def padDigits (w : ℕ) (l : List Char) : List Char :=
  List.replicate (w - l.length) '0' ++ l

/-- Value of a most-significant-first digit list. -/
def natFromDigits (l : List Char) : ℕ :=
  l.foldl (fun a c => 10 * a + digVal c) 0

/-! ## JS string primitives -/

/-- JS string truthiness: a string is truthy iff it is nonempty. -/
def jsTruthyStr (s : String) : Bool := !(s.data.isEmpty)

/-- `String.prototype.includes` for a single-character needle. -/
def jsIncludes (s : String) (c : Char) : Bool := decide (c ∈ s.data)

/-- `String.prototype.trim` on the character list. -/
def jsTrimData (l : List Char) : List Char :=
  ((l.dropWhile jsIsWs).reverse.dropWhile jsIsWs).reverse

/-- `String.prototype.trim`. -/
def jsTrim (s : String) : String := ⟨jsTrimData s.data⟩

/-- `s.split('|')` on the character list: split at every pipe. -/
def splitPipe : List Char → List (List Char)
  | [] => [[]]
  | '|' :: t => [] :: splitPipe t
  | c :: t =>
    match splitPipe t with
    | [] => [[c]]
    | h :: r => (c :: h) :: r

/-- `s.split('|')`, producing strings. -/
def splitPipeStr (s : String) : List String :=
  (splitPipe s.data).map (fun l => ⟨l⟩)

/-- `s.replace(/\.0$/, '')`: drop a trailing `".0"` if present. -/
def stripDot0 (s : String) : String :=
  if s.data.reverse.take 2 = ['0', '.'] then ⟨(s.data.reverse.drop 2).reverse⟩ else s

/-- `Array.prototype.join(sep)`. -/
def myIntercalate (sep : String) : List String → String
  | [] => ""
  | [p] => p
  | p :: r => p ++ sep ++ myIntercalate sep r

/-! ## JS numbers -/

/-- Rational addition through `mkRat`, so that terms reduce in the kernel
(the library `+` on `ℚ` is irreducible). -/
def qadd (a b : ℚ) : ℚ := mkRat (a.num * b.den + b.num * a.den) (a.den * b.den)

/-- Rational multiplication through `mkRat` (kernel-reducible). -/
def qmul (a b : ℚ) : ℚ := mkRat (a.num * b.num) (a.den * b.den)

/-- Rational negation through `mkRat` (kernel-reducible). -/
def qneg (a : ℚ) : ℚ := mkRat (-a.num) a.den

/-- Rational division through `Rat.divInt` (kernel-reducible); agrees with
`a / b` whenever `b ≠ 0`. -/
def qdivE (a b : ℚ) : ℚ := Rat.divInt (a.num * b.den) (a.den * b.num)

/-- Rational subtraction (kernel-reducible). -/
def qsub (a b : ℚ) : ℚ := qadd a (qneg b)

/-- A JavaScript number as this program can observe it: a finite value
(modelled exactly as a rational), `NaN`, or a signed infinity. -/
inductive JsNum where
  | num (q : ℚ)
  | nan
  | inf
  | ninf
deriving DecidableEq

/-- JS number truthiness (`0` and `NaN` are falsy). -/
def jsTruthyNum : JsNum → Bool
  | .num q => decide (q ≠ 0)
  | .nan => false
  | .inf => true
  | .ninf => true

/-- `Number.isFinite`. -/
def jsFinite : JsNum → Bool
  | .num _ => true
  | _ => false

/-- The `<` comparison on JS numbers (`NaN` compares false). -/
def jsLt : JsNum → JsNum → Bool
  | .num a, .num b => decide (a < b)
  | .num _, .inf => true
  | .num _, .ninf => false
  | .inf, .inf => false
  | .inf, .num _ => false
  | .inf, .ninf => false
  | .ninf, .ninf => false
  | .ninf, _ => true
  | .nan, _ => false
  | _, .nan => false

/-- Unary minus. -/
def jsNeg : JsNum → JsNum
  | .num q => .num (qneg q)
  | .nan => .nan
  | .inf => .ninf
  | .ninf => .inf

/-- JS division, restricted to the shapes this program produces
(the divisor is truthy whenever the source divides). -/
def jsDiv : JsNum → JsNum → JsNum
  | .num a, .num b =>
    if b = 0 then (if a = 0 then .nan else if a < 0 then .ninf else .inf)
    else .num (qdivE a b)
  | .num _, .inf => .num 0
  | .num _, .ninf => .num 0
  | .inf, .num b => if b < 0 then .ninf else .inf
  | .ninf, .num b => if b < 0 then .inf else .ninf
  | .inf, .inf => .nan
  | .inf, .ninf => .nan
  | .ninf, .inf => .nan
  | .ninf, .ninf => .nan
  | .nan, _ => .nan
  | _, .nan => .nan

/-- Floor of a rational (kernel-reducible; definitionally `Int.floor`). -/
def jfloor (q : ℚ) : ℤ := q.floor

/-- `Math.round` on a finite value: `floor(x + 0.5)`. -/
def jroundQ (q : ℚ) : ℤ := jfloor (qadd q (mkRat 1 2))

/-- `Math.round` on a JS number. -/
def jsRound : JsNum → JsNum
  | .num q => .num ((jroundQ q : ℤ) : ℚ)
  | .nan => .nan
  | .inf => .inf
  | .ninf => .ninf

/-- `Math.pow (b, ·)` for a fixed finite base `b > 1` (here `Math.SQRT2`
or `2`), with the finite case abstracted as the parameter `F` since its
exact value is transcendental: `pow(b, NaN) = NaN`, `pow(b, ∞) = ∞`,
`pow(b, -∞) = 0`. -/
def jsPowPos (F : ℚ → ℚ) : JsNum → JsNum
  | .num q => .num (F q)
  | .nan => .nan
  | .inf => .inf
  | .ninf => .num 0

/-! ## Parsing: `Number(s)` and `rationalToFloat` -/

/-- Build the parsed value `sign * (ip . fp) * 10^(±e)` of the JS decimal
grammar, using only kernel-reducible rational operations. -/
def mkVal (ip fp : List Char) (e : ℕ) (epos : Bool) (neg : Bool) : ℚ :=
  let m : ℚ :=
    mkRat ((natFromDigits ip * 10 ^ fp.length + natFromDigits fp : ℕ) : ℤ)
      (10 ^ fp.length)
  let v : ℚ := if epos then qmul m (mkRat ((10 ^ e : ℕ) : ℤ) 1) else qmul m (mkRat 1 (10 ^ e))
  if neg then qneg v else v

/-- Exponent part of the JS decimal grammar (after `e`/`E`): an optional
sign and a nonempty digit run consuming the rest of the input. -/
def parseExpPart (ip fp : List Char) (t : List Char) (neg : Bool) : Option ℚ :=
  let ep : Bool × List Char :=
    if t.head? = some '+' then (true, t.tail)
    else if t.head? = some '-' then (false, t.tail)
    else (true, t)
  let ed := ep.2.takeWhile isDig
  let er := ep.2.dropWhile isDig
  if ed.isEmpty || !er.isEmpty then none
  else some (mkVal ip fp (natFromDigits ed) ep.1 neg)

/-- After the integer and fraction digits: the mantissa must be nonempty
and the rest must be empty or a valid exponent part. -/
def parseTail (ip fp : List Char) (r2 : List Char) (neg : Bool) : Option ℚ :=
  if ip.isEmpty && fp.isEmpty then none
  else if r2.isEmpty then some (mkVal ip fp 0 true neg)
  else if r2.head? = some 'e' || r2.head? = some 'E' then parseExpPart ip fp r2.tail neg
  else none

/-- Integer digits, then an optional `.` and fraction digits. -/
def parseDecBody (l : List Char) (neg : Bool) : Option ℚ :=
  let ip := l.takeWhile isDig
  let r1 := l.dropWhile isDig
  if r1.head? = some '.' then
    parseTail ip (r1.tail.takeWhile isDig) (r1.tail.dropWhile isDig) neg
  else parseTail ip [] r1 neg

/-- The signed JS decimal literal grammar. -/
def parseDec (l : List Char) : Option ℚ :=
  if l.head? = some '+' then parseDecBody l.tail false
  else if l.head? = some '-' then parseDecBody l.tail true
  else parseDecBody l false

/-- Digit value in an arbitrary radix (`0-9`, `a-f`, `A-F`). -/
def radixVal (c : Char) : ℕ :=
  if 48 ≤ c.toNat ∧ c.toNat ≤ 57 then c.toNat - 48
  else if 97 ≤ c.toNat ∧ c.toNat ≤ 102 then c.toNat - 87
  else if 65 ≤ c.toNat ∧ c.toNat ≤ 70 then c.toNat - 55
  else 16

/-- Unsigned radix literal (after `0x`/`0b`/`0o`): nonempty, all digits
valid for the radix. -/
def parseRadix (b : ℕ) (l : List Char) : Option ℚ :=
  if l.isEmpty || !(l.all (fun c => radixVal c < b)) then none
  else some (mkRat ((l.foldl (fun a c => b * a + radixVal c) 0 : ℕ) : ℤ) 1)

/-- The JS numeric-literal grammar after trimming: hex/binary/octal
(unsigned) or the signed decimal grammar. -/
def parseJsNumeric (l : List Char) : Option ℚ :=
  if l.take 2 = ['0', 'x'] ∨ l.take 2 = ['0', 'X'] then parseRadix 16 (l.drop 2)
  else if l.take 2 = ['0', 'b'] ∨ l.take 2 = ['0', 'B'] then parseRadix 2 (l.drop 2)
  else if l.take 2 = ['0', 'o'] ∨ l.take 2 = ['0', 'O'] then parseRadix 8 (l.drop 2)
  else parseDec l

/-- `Number(s)` on a string: trim; empty is `0`; the `Infinity` forms;
otherwise the numeric grammar, `NaN` on failure. -/
def jsNumber (s : String) : JsNum :=
  let l := jsTrimData s.data
  if l.isEmpty then .num 0
  else if l = ("Infinity").data ∨ l = ("+Infinity").data then .inf
  else if l = ("-Infinity").data then .ninf
  else
    match parseJsNumeric l with
    | some q => .num q
    | none => .nan

/--
The source helper (`gulpfile`, lines 31-39):

```
function rationalToFloat(s) {
  if (!s) return null;
  if (s.includes('/')) {
    const [a, b] = s.split('/').map(Number);
    if (b) return a / b;
  }
  const n = Number(s);
  return Number.isFinite(n) ? n : null;
}
```

`none` models `null`.  Note that the slash branch returns `a / b` for any
truthy `b`, without a finiteness check on `a`.
-/
def rationalToFloat (s : String) : Option JsNum :=
  if !jsTruthyStr s then none
  else
    let viaSlash : Option JsNum :=
      if jsIncludes s '/' then
        let parts := (s.data.splitOn '/').map (fun l => jsNumber ⟨l⟩)
        let a := parts.headD .nan
        let b := parts.getD 1 .nan
        if jsTruthyNum b then some (jsDiv a b) else none
      else none
    match viaSlash with
    | some v => some v
    | none =>
      let n := jsNumber s
      if jsFinite n then some n else none

/-! ## Printing: `toFixed(1)` and JS number-to-string -/

/-- Integer-and-one-decimal rendering of `n` tenths: `n = 47` prints
`"4.7"`. -/
def fixedNat (n : ℕ) : String :=
  ⟨natToChars (n / 10)⟩ ++ "." ++ ⟨[digitChar (n % 10)]⟩

/-- Rounding of `Number.prototype.toFixed(1)`: on the magnitude, the
integer `n` with `n/10` closest to `x`, ties away from zero upwards
(`floor (10x + 1/2)`). -/
def natRound1 (q : ℚ) : ℕ := (jfloor (qadd (qmul (mkRat 10 1) q) (mkRat 1 2))).toNat

/-- `x.toFixed(1)` (exact in the non-exponent range `|x| < 10^21`, which
covers every value this program formats). -/
def jsToFixed1 : JsNum → String
  | .nan => "NaN"
  | .inf => "Infinity"
  | .ninf => "-Infinity"
  | .num q => if q < 0 then "-" ++ fixedNat (natRound1 (qneg q)) else fixedNat (natRound1 q)

/-- Decimal rendering of an integer, as JS prints integer-valued numbers. -/
def intToString (i : ℤ) : String :=
  if i < 0 then "-" ++ ⟨natToChars i.natAbs⟩ else ⟨natToChars i.toNat⟩

/-- JS `ToString` of a nonnegative finite number: the minimal decimal-fraction
rendering when one with at most 17 fractional digits exists (every value this
program prints is of that form); a 17-digit truncation otherwise. -/
def posToString (q : ℚ) : String :=
  if q.den = 1 then ⟨natToChars q.num.toNat⟩
  else
    match (List.range' 1 17).find? (fun k => (qmul q (mkRat ((10 ^ k : ℕ) : ℤ) 1)).den = 1) with
    | some k =>
      ⟨natToChars (jfloor q).toNat⟩ ++ "." ++
        ⟨padDigits k (natToChars (qmul (qsub q ((jfloor q : ℤ) : ℚ)) (mkRat ((10 ^ k : ℕ) : ℤ) 1)).num.toNat)⟩
    | none =>
      ⟨natToChars (jfloor q).toNat⟩ ++ "." ++
        ⟨padDigits 17 (natToChars (jfloor (qmul (qsub q ((jfloor q : ℤ) : ℚ)) (mkRat ((10 ^ 17 : ℕ) : ℤ) 1))).toNat)⟩

/-- JS `ToString` of a number (template-literal interpolation). -/
def jsToString : JsNum → String
  | .nan => "NaN"
  | .inf => "Infinity"
  | .ninf => "-Infinity"
  | .num q => if q < 0 then "-" ++ posToString (qneg q) else posToString q

/-! ## `readExif`: field resolution (gulpfile lines 41-84)

The `magick identify -format` call is an external step; its stdout is the
input here.  `F` abstracts `Math.pow(Math.SQRT2, ·)` and `P` abstracts
`Math.pow(2, ·)` on finite arguments. -/

/-- The resolved metadata record (model, f-number, exposure, ISO), all
display-ready strings. -/
structure MetadataRecord where
  model : String
  fNumber : String
  exposure : String
  iso : String
deriving DecidableEq

/-- F-number, first block (lines 57-61): if the direct field is falsy and
the APEX aperture value is truthy, derive `sqrt(2)^av`, one decimal,
trailing `".0"` stripped; `rationalToFloat` returning `null` leaves the
field unchanged. -/
def fnStage1 (F : ℚ → ℚ) (fnum av : String) : String :=
  if !jsTruthyStr fnum && jsTruthyStr av then
    match rationalToFloat av with
    | some v => stripDot0 (jsToFixed1 (jsPowPos F v))
    | none => fnum
  else fnum

/-- F-number, second block (lines 62-65): a truthy value containing `/`
is re-parsed and rendered as a decimal with the same rule. -/
def fnStage2 (f1 : String) : String :=
  if jsTruthyStr f1 && jsIncludes f1 '/' then
    match rationalToFloat f1 with
    | some v => stripDot0 (jsToFixed1 v)
    | none => f1
  else f1

/-- Full f-number resolution (lines 56-65). -/
def resolveFNumber (F : ℚ → ℚ) (fnum av : String) : String :=
  fnStage2 (fnStage1 F fnum av)

/-- Exposure, first block (lines 68-76): if the direct field is falsy and
the APEX shutter-speed value parses, let `t = 2^(-tv)`; format `1/round(1/t)`
when `t < 1`, else one decimal stripped plus `"s"`. -/
def expStage1 (P : ℚ → ℚ) (exp ssv : String) : String :=
  if !jsTruthyStr exp && jsTruthyStr ssv then
    match rationalToFloat ssv with
    | some tvn =>
      let t := jsPowPos P (jsNeg tvn)
      if jsLt t (.num 1) then "1/" ++ jsToString (jsRound (jsDiv (.num 1) t))
      else stripDot0 (jsToFixed1 t) ++ "s"
    | none => exp
  else exp

/-- Exposure, second block (lines 77-80): a truthy value without `/` that
parses as a finite number `t` is re-rendered as `1/round(1/t)` when
`t < 1`, else as the default string rendering of `t` plus `"s"`. -/
def expStage2 (e1 : String) : String :=
  if jsTruthyStr e1 && !jsIncludes e1 '/' then
    let t := jsNumber e1
    if jsFinite t then
      if jsLt t (.num 1) then "1/" ++ jsToString (jsRound (jsDiv (.num 1) t))
      else jsToString t ++ "s"
    else e1
  else e1

/-- Full exposure resolution (lines 67-80). -/
def resolveExposure (P : ℚ → ℚ) (exp ssv : String) : String :=
  expStage2 (expStage1 P exp ssv)

/-- Field `i` of the identify output (line 54): trim the stdout, split at
`|`, trim each part; missing fields read as `""` (destructuring to
`undefined`, which every later use treats like the empty string). -/
def exifField (stdout : String) (i : ℕ) : String :=
  (((splitPipeStr (jsTrim stdout)).map jsTrim).getD i "")

/-- `readExif` after the identify call (lines 54-83): resolve the four
fields from the seven raw ones. -/
def readExif (F P : ℚ → ℚ) (stdout : String) : MetadataRecord where
  model := if jsTruthyStr (exifField stdout 0) then exifField stdout 0 else "Camera"
  fNumber := resolveFNumber F (exifField stdout 1) (exifField stdout 2)
  exposure := resolveExposure P (exifField stdout 3) (exifField stdout 4)
  iso :=
    if jsTruthyStr (exifField stdout 5) then exifField stdout 5
    else if jsTruthyStr (exifField stdout 6) then exifField stdout 6
    else ""

/-! ## `addWatermark`: geometry and text (gulpfile lines 92-104) -/

/-- `Math.max` on two finite values (kernel-reducible). -/
def jmax (a b : ℚ) : ℚ := if Rat.blt a b then b else a

/-- The derived watermark geometry. -/
structure WatermarkSpec where
  ps : ℚ
  barHeight : ℚ
  y0 : ℚ
deriving DecidableEq

/-- Lines 94-96: point size from the override (`||`, so a falsy override
falls through) or from the width; bar height; bar top.  `w` and `h` are
the probed dimensions. -/
def watermarkGeom (w h : ℚ) (ov : Option ℚ) : WatermarkSpec :=
  let dflt := jmax 14 ((jroundQ (qmul w (mkRat 28 1000)) : ℤ) : ℚ)
  let ps :=
    match ov with
    | some o => if o = 0 then dflt else o
    | none => dflt
  let barHeight := jmax 50 ((jroundQ (qmul ps (mkRat 22 10)) : ℤ) : ℚ)
  { ps := ps, barHeight := barHeight, y0 := jmax 0 (qsub h barHeight) }

/-- `[ ... ].filter(Boolean)` over `string | null` entries: drop `null`
and falsy (empty) strings. -/
def jsFilterBoolean (l : List (Option String)) : List String :=
  l.filterMap (fun o =>
    match o with
    | none => none
    | some s => if jsTruthyStr s then some s else none)

/-- Lines 98-103: the ordered, present-only fragment list. -/
def wmParts (m : MetadataRecord) : List String :=
  jsFilterBoolean
    [some ("📷 " ++ m.model),
     if jsTruthyStr m.fNumber then some ("● f/" ++ m.fNumber) else none,
     if jsTruthyStr m.exposure then some ("● " ++ m.exposure) else none,
     if jsTruthyStr m.iso then some ("● ISO " ++ m.iso) else none]

/-- Line 104: `parts.join('   ')`. -/
def wmText (m : MetadataRecord) : String := myIntercalate "   " (wmParts m)

/-! ## The `resize-images` task (gulpfile lines 143-187)

Each external operation either succeeds or throws; the environment fixes,
for each step of one file's processing, whether it succeeds and the error
message it would throw with.  `processFile` returns the list of performed
actions in order, mirroring the `try`/`catch`/inner-`try` structure.
`fs.writeFileSync` of the error placeholder and the guarded `unlinkSync`
cleanup are modelled as non-failing actions. -/

/-- The steps of one file's processing, by source location: the primary
path (lines 152-166) and the fallback path (lines 174-179). -/
inductive PStep where
  | readMeta1
  | verify
  | normalize
  | resizeFull
  | resizeThumb
  | watermarkFull
  | copyThumb
  | readMeta2
  | fbResizeFull
  | fbResizeThumb
  | fbWatermarkFull
  | fbWatermarkThumb
deriving DecidableEq, Fintype

/-- The outcome environment of one file: which steps succeed, and the
error message thrown by a failing step. -/
structure Env where
  ok : PStep → Bool
  msg : PStep → String

/-- An observable action, generic in the step-location type: an external
step run on given paths, an `unlinkSync`, or a `writeFileSync`. -/
inductive Act (σ : Type) where
  | run (s : σ) (src dst : String) (ok : Bool)
  | unlink (p : String)
  | write (dst content : String)
deriving DecidableEq

/-- `path.join('images', file)` (posix separator). -/
def origP (f : String) : String := "images/" ++ f

/-- `path.join('images', 'temp_' + file)`. -/
def tempP (f : String) : String := "images/temp_" ++ f

/-- `path.join('images', 'temp_full_' + file)`. -/
def tempFullP (f : String) : String := "images/temp_full_" ++ f

/-- `path.join('images', 'temp_thumb_' + file)`. -/
def tempThumbP (f : String) : String := "images/temp_thumb_" ++ f

/-- `path.join('images/fulls', file)`. -/
def outFullP (f : String) : String := "images/fulls/" ++ f

/-- `path.join('images/thumbs', file)`. -/
def outThumbP (f : String) : String := "images/thumbs/" ++ f

/-- The error placeholder payload (lines 183-184): note it carries the
message of the *primary* error `err`, not of `fallbackErr`. -/
def errPayload (f m : String) : String := "ERROR PROCESSING: " ++ f ++ "\n" ++ m

/-- The source path each step reads from (primary: lines 152-166,
fallback: lines 174-179). -/
def pSrc (f : String) : PStep → String
  | .readMeta1 => origP f
  | .verify => origP f
  | .normalize => origP f
  | .resizeFull => tempP f
  | .resizeThumb => tempP f
  | .watermarkFull => tempFullP f
  | .copyThumb => tempThumbP f
  | .readMeta2 => origP f
  | .fbResizeFull => origP f
  | .fbResizeThumb => origP f
  | .fbWatermarkFull => outFullP f
  | .fbWatermarkThumb => outThumbP f

/-- The destination path each step writes (for the read/probe steps,
which produce no file, the destination equals the source). -/
def pDst (f : String) : PStep → String
  | .readMeta1 => origP f
  | .verify => origP f
  | .normalize => tempP f
  | .resizeFull => tempFullP f
  | .resizeThumb => tempThumbP f
  | .watermarkFull => outFullP f
  | .copyThumb => outThumbP f
  | .readMeta2 => origP f
  | .fbResizeFull => outFullP f
  | .fbResizeThumb => outThumbP f
  | .fbWatermarkFull => outFullP f
  | .fbWatermarkThumb => outThumbP f

/-- Run a sequence of awaited steps in order: each performed step is
recorded with its paths and outcome; the first failing step stops the
sequence and carries its error message (the thrown `err`). -/
def runSeq {σ : Type} (ok : σ → Bool) (msg : σ → String) (src dst : σ → String) :
    List σ → List (Act σ) × Option String
  | [] => ([], none)
  | s :: rest =>
    if ok s then
      (Act.run s (src s) (dst s) true :: (runSeq ok msg src dst rest).1,
        (runSeq ok msg src dst rest).2)
    else ([Act.run s (src s) (dst s) false], some (msg s))

/-- The primary path's steps in source order (lines 152-166). -/
def primarySteps : List PStep :=
  [.readMeta1, .verify, .normalize, .resizeFull, .resizeThumb, .watermarkFull, .copyThumb]

/-- The fallback path's steps in source order (lines 174-179). -/
def fallbackSteps : List PStep :=
  [.readMeta2, .fbResizeFull, .fbResizeThumb, .fbWatermarkFull, .fbWatermarkThumb]

/-- The primary `try` block (lines 150-170): the steps in order; when all
succeed, the guarded cleanup (line 169) unlinks the three temporaries. -/
def primaryTrace (e : Env) (f : String) : List (Act PStep) × Option String :=
  match runSeq e.ok e.msg (pSrc f) (pDst f) primarySteps with
  | (tr, none) =>
    (tr ++ [.unlink (tempP f), .unlink (tempFullP f), .unlink (tempThumbP f)], none)
  | (tr, some m) => (tr, some m)

/-- The fallback `try` block (lines 173-180). -/
def fallbackTrace (e : Env) (f : String) : List (Act PStep) × Option String :=
  runSeq e.ok e.msg (pSrc f) (pDst f) fallbackSteps

/-- One file's processing (lines 150-186): the primary block; on a caught
error the fallback block; if that also throws, write the placeholder
payload (with the primary error message) to both tiers. -/
def processFile (e : Env) (f : String) : List (Act PStep) :=
  match primaryTrace e f with
  | (tp, none) => tp
  | (tp, some m) =>
    match fallbackTrace e f with
    | (tf, none) => tp ++ tf
    | (tf, some _) =>
      tp ++ tf ++ [.write (outFullP f) (errPayload f m), .write (outThumbP f) (errPayload f m)]

/-- The `for (const file of files)` loop (line 143): files are processed
in order, each with its own environment; no outcome stops the loop. -/
def processAll (E : String → Env) : List String → List (Act PStep)
  | [] => []
  | f :: rest => processFile (E f) f ++ processAll E rest

/-- The source step location of an action, if it is an external step. -/
def stepTag {σ : Type} : Act σ → Option σ
  | .run s _ _ _ => some s
  | _ => none

/-- The `writeFileSync` actions of a trace. -/
def writesOf {σ : Type} (tr : List (Act σ)) : List (Act σ) :=
  tr.filter (fun a =>
    match a with
    | .write _ _ => true
    | _ => false)

/-- Files present after a trace: successful output-producing steps and
placeholder writes create their destination, `unlinkSync` removes. -/
def filesAfterStep {σ : Type} (creates : σ → Bool) (acc : List String) :
    Act σ → List String
  | .run s _ dst ok => if ok && creates s then acc ++ [dst] else acc
  | .unlink p => acc.erase p
  | .write dst _ => acc ++ [dst]

/-- Fold a trace over the file-system abstraction. -/
def filesAfter {σ : Type} (creates : σ → Bool) (tr : List (Act σ)) : List String :=
  tr.foldl (filesAfterStep creates) []

/-- Which primary/fallback steps create their destination file. -/
def pCreates : PStep → Bool
  | .readMeta1 => false
  | .verify => false
  | .readMeta2 => false
  | _ => true

/-- The three temporary paths of one file. -/
def tempsOf (f : String) : List String := [tempP f, tempFullP f, tempThumbP f]

/-- Temporary files surviving one file's processing. -/
def leftoverTemps (tr : List (Act PStep)) (f : String) : List String :=
  (filesAfter pCreates tr).filter (fun p => (tempsOf f).contains p)

/-! ## The plain `resize-images` task of `src/gulpfile.js` (lines 43-88)

The same primary/fallback/placeholder shape, without the EXIF and
watermark steps: verify, convert to a temp copy, resize to both tiers,
unlink the temp; on failure resize the original directly; on fallback
failure write the placeholder to both tiers. -/

/-- Step locations of the plain task. -/
inductive CStep where
  | verify
  | convert
  | resizeFull
  | resizeThumb
  | fbResizeFull
  | fbResizeThumb
deriving DecidableEq, Fintype

/-- Outcome environment of the plain task. -/
structure CEnv where
  ok : CStep → Bool
  msg : CStep → String

/-- Source paths of the plain task's steps. -/
def cSrc (f : String) : CStep → String
  | .verify => origP f
  | .convert => origP f
  | .resizeFull => tempP f
  | .resizeThumb => tempP f
  | .fbResizeFull => origP f
  | .fbResizeThumb => origP f

/-- Destination paths of the plain task's steps (the verify probe has no
output; its destination equals its source). -/
def cDst (f : String) : CStep → String
  | .verify => origP f
  | .convert => tempP f
  | .resizeFull => outFullP f
  | .resizeThumb => outThumbP f
  | .fbResizeFull => outFullP f
  | .fbResizeThumb => outThumbP f

/-- The plain task's primary steps in source order (lines 52-64). -/
def cPrimarySteps : List CStep := [.verify, .convert, .resizeFull, .resizeThumb]

/-- The plain task's fallback steps in source order (lines 76-77). -/
def cFallbackSteps : List CStep := [.fbResizeFull, .fbResizeThumb]

/-- Primary `try` block of the plain task (lines 50-68): the steps in
order; on full success the temp copy is unlinked (line 68). -/
def cPrimaryTrace (e : CEnv) (f : String) : List (Act CStep) × Option String :=
  match runSeq e.ok e.msg (cSrc f) (cDst f) cPrimarySteps with
  | (tr, none) => (tr ++ [.unlink (tempP f)], none)
  | (tr, some m) => (tr, some m)

/-- Fallback `try` block of the plain task (lines 73-79). -/
def cFallbackTrace (e : CEnv) (f : String) : List (Act CStep) × Option String :=
  runSeq e.ok e.msg (cSrc f) (cDst f) cFallbackSteps

/-- One file's processing in the plain task (lines 50-87). -/
def cProcessFile (e : CEnv) (f : String) : List (Act CStep) :=
  match cPrimaryTrace e f with
  | (tp, none) => tp
  | (tp, some m) =>
    match cFallbackTrace e f with
    | (tf, none) => tp ++ tf
    | (tf, some _) =>
      tp ++ tf ++ [.write (outFullP f) (errPayload f m), .write (outThumbP f) (errPayload f m)]

/-- The file loop of the plain task. -/
def cProcessAll (E : String → CEnv) : List String → List (Act CStep)
  | [] => []
  | f :: rest => cProcessFile (E f) f ++ cProcessAll E rest

/-- Which plain-task steps create their destination file. -/
def cCreates : CStep → Bool
  | .verify => false
  | _ => true

/-! ## Concrete environments used by witnesses and counterexamples -/

/-- All steps succeed. -/
def envAllOk : Env := ⟨fun _ => true, fun _ => "ok"⟩

/-- The primary watermark step fails, everything else succeeds. -/
def envFailWm : Env := ⟨fun s => decide (s ≠ PStep.watermarkFull), fun _ => "wm boom"⟩

/-- The primary normalize step and the fallback thumb watermark fail. -/
def envDoubleFail : Env :=
  ⟨fun s => decide (s ≠ PStep.normalize ∧ s ≠ PStep.fbWatermarkThumb), fun _ => "boom"⟩

/-- Plain task: convert fails, fallback fails at the full resize. -/
def cEnvDoubleFail : CEnv :=
  ⟨fun s => decide (s ≠ CStep.convert ∧ s ≠ CStep.fbResizeFull), fun _ => "cboom"⟩

/-- Plain task: all steps succeed. -/
def cEnvAllOk : CEnv := ⟨fun _ => true, fun _ => "ok"⟩

/-- Temporary files surviving one file's processing in the plain task. -/
def cLeftoverTemps (tr : List (Act CStep)) (f : String) : List String :=
  (filesAfter cCreates tr).filter (fun p => [tempP f].contains p)

/-! ## Bridging lemmas: kernel-reducible rationals vs library operations -/

theorem qadd_eq (a b : ℚ) : qadd a b = a + b := by
  rw [Rat.add_def' a b, qadd]

theorem qmul_eq (a b : ℚ) : qmul a b = a * b := by
  rw [qmul, Rat.mul_def a b, Rat.normalize_eq_mkRat]

theorem qneg_eq (a : ℚ) : qneg a = -a := by
  rw [qneg, ← Rat.neg_mkRat, Rat.mkRat_self]

theorem qsub_eq (a b : ℚ) : qsub a b = a - b := by
  rw [qsub, qadd_eq, qneg_eq, sub_eq_add_neg]

theorem qdivE_eq (a b : ℚ) (hb : b ≠ 0) : qdivE a b = a / b := by
  have hbn : (b.num : ℚ) ≠ 0 := Int.cast_ne_zero.mpr (Rat.num_ne_zero.mpr hb)
  have had : (a.den : ℚ) ≠ 0 := Nat.cast_ne_zero.mpr a.den_nz
  have hbd : (b.den : ℚ) ≠ 0 := Nat.cast_ne_zero.mpr b.den_nz
  rw [qdivE, Rat.divInt_eq_div]
  conv_rhs => rw [← Rat.num_div_den a, ← Rat.num_div_den b]
  push_cast
  field_simp

theorem mkRatq_eq (n : ℤ) (d : ℕ) : mkRat n d = (n : ℚ) / (d : ℚ) := by
  rw [Rat.mkRat_eq_divInt, Rat.divInt_eq_div]
  norm_cast

theorem jfloor_eq (q : ℚ) : jfloor q = ⌊q⌋ := rfl

theorem jroundQ_eq (q : ℚ) : jroundQ q = ⌊q + 1 / 2⌋ := by
  rw [jroundQ, qadd_eq, jfloor_eq, mkRatq_eq]
  norm_num

theorem jmax_eq (a b : ℚ) : jmax a b = max a b := by
  rw [jmax]
  by_cases h : a < b
  · rw [if_pos (show Rat.blt a b = true from h), max_eq_right h.le]
  · rw [if_neg (show ¬ Rat.blt a b = true from h), max_eq_left (not_lt.mp h)]

/-! ## Character and digit-string lemmas -/

theorem isDig_digitChar (k : ℕ) : isDig (digitChar k) = true := by
  rcases k with _ | _ | _ | _ | _ | _ | _ | _ | _ | k <;> rfl

theorem isDig_not_ws {c : Char} (h : isDig c = true) : jsIsWs c = false := by
  simp only [isDig, decide_eq_true_eq] at h
  simp only [jsIsWs, decide_eq_false_iff_not]
  omega

theorem isDig_ne {c d : Char} (h : isDig c = true) (hd : isDig d = false) : c ≠ d := by
  intro he
  rw [he, hd] at h
  cases h

theorem natToCharsGo_digits :
    ∀ (fuel n : ℕ), ∀ c ∈ natToCharsGo fuel n, isDig c = true := by
  intro fuel
  induction fuel with
  | zero => intro n c hc; cases hc
  | succ fuel ih =>
    intro n c hc
    rw [natToCharsGo] at hc
    by_cases h : n < 10
    · rw [if_pos h] at hc
      rcases List.mem_singleton.mp hc with rfl
      exact isDig_digitChar n
    · rw [if_neg h] at hc
      rcases List.mem_append.mp hc with h1 | h1
      · exact ih (n / 10) c h1
      · rcases List.mem_singleton.mp h1 with rfl
        exact isDig_digitChar (n % 10)

theorem natToChars_digits (n : ℕ) : ∀ c ∈ natToChars n, isDig c = true :=
  natToCharsGo_digits (n + 1) n

theorem natToChars_ne_nil (n : ℕ) : natToChars n ≠ [] := by
  rw [natToChars, natToCharsGo]
  by_cases h : n < 10
  · rw [if_pos h]; simp
  · rw [if_neg h]; simp

theorem dropWhile_of_all_neg {p : α → Bool} {l : List α}
    (h : ∀ c ∈ l, p c = false) : l.dropWhile p = l := by
  cases l with
  | nil => rfl
  | cons a t => exact List.dropWhile_cons_of_neg (by simp [h a (by simp)])

theorem jsTrimData_noop {l : List Char} (h : ∀ c ∈ l, jsIsWs c = false) :
    jsTrimData l = l := by
  rw [jsTrimData, dropWhile_of_all_neg h,
    dropWhile_of_all_neg (fun c hc => h c (List.mem_reverse.mp hc)), List.reverse_reverse]

theorem takeWhile_append_all {p : α → Bool} {A : List α} (B : List α)
    (h : ∀ c ∈ A, p c = true) : (A ++ B).takeWhile p = A ++ B.takeWhile p := by
  induction A with
  | nil => rfl
  | cons a t ih =>
    rw [List.cons_append, List.takeWhile_cons_of_pos (h a (by simp)), List.cons_append,
      ih (fun c hc => h c (by simp [hc]))]

theorem dropWhile_append_all {p : α → Bool} {A : List α} (B : List α)
    (h : ∀ c ∈ A, p c = true) : (A ++ B).dropWhile p = B.dropWhile p := by
  induction A with
  | nil => rfl
  | cons a t ih =>
    rw [List.cons_append, List.dropWhile_cons_of_pos (h a (by simp)),
      ih (fun c hc => h c (by simp [hc]))]

/-! ## Lemmas on `stripDot0`, `fixedNat` and the numeric parser -/

theorem stripDot0_dot (X : List Char) (d : Char) :
    stripDot0 ⟨X ++ ['.', d]⟩ =
      if d = '0' then (⟨X⟩ : String) else ⟨X ++ ['.', d]⟩ := by
  have hrev : (X ++ ['.', d]).reverse = d :: '.' :: X.reverse := by
    simp
  rw [stripDot0]
  show (if (X ++ ['.', d]).reverse.take 2 = ['0', '.'] then _ else _) = _
  rw [hrev]
  by_cases hd : d = '0'
  · subst hd
    simp
  · rw [if_neg (by simp [hd]), if_neg hd]

theorem stripDot0_sub {s : String} {c : Char} (h : c ∈ (stripDot0 s).data) :
    c ∈ s.data := by
  rw [stripDot0] at h
  split_ifs at h
  · have h1 : c ∈ s.data.reverse.drop 2 := List.mem_reverse.mp h
    exact List.mem_reverse.mp (List.drop_subset 2 s.data.reverse h1)
  · exact h

theorem parseTail_s (ip fp : List Char) (neg : Bool) :
    parseTail ip fp ['s'] neg = none := by
  rw [parseTail]
  split_ifs with h1 h2 h3
  · rfl
  · cases h2
  · simp at h3
  · rfl

theorem parseDecBody_digits_s {A : List Char} (hA : ∀ c ∈ A, isDig c = true)
    (neg : Bool) : parseDecBody (A ++ ['s']) neg = none := by
  have ht : (A ++ ['s']).takeWhile isDig = A := by
    rw [takeWhile_append_all _ hA, List.takeWhile_cons_of_neg (by decide),
      List.append_nil]
  have hd : (A ++ ['s']).dropWhile isDig = ['s'] := by
    rw [dropWhile_append_all _ hA, List.dropWhile_cons_of_neg (by decide)]
  rw [parseDecBody]
  show (if ((A ++ ['s']).dropWhile isDig).head? = some '.' then _ else _) = _
  rw [ht, hd, if_neg (by decide)]
  exact parseTail_s A [] neg

theorem parseDecBody_digits_dot_s {A B : List Char}
    (hA : ∀ c ∈ A, isDig c = true) (hB : ∀ c ∈ B, isDig c = true) (neg : Bool) :
    parseDecBody (A ++ '.' :: (B ++ ['s'])) neg = none := by
  have ht : (A ++ '.' :: (B ++ ['s'])).takeWhile isDig = A := by
    rw [takeWhile_append_all _ hA, List.takeWhile_cons_of_neg (by decide),
      List.append_nil]
  have hd : (A ++ '.' :: (B ++ ['s'])).dropWhile isDig = '.' :: (B ++ ['s']) := by
    rw [dropWhile_append_all _ hA, List.dropWhile_cons_of_neg (by decide)]
  have ht2 : (B ++ ['s']).takeWhile isDig = B := by
    rw [takeWhile_append_all _ hB, List.takeWhile_cons_of_neg (by decide),
      List.append_nil]
  have hd2 : (B ++ ['s']).dropWhile isDig = ['s'] := by
    rw [dropWhile_append_all _ hB, List.dropWhile_cons_of_neg (by decide)]
  rw [parseDecBody]
  show (if ((A ++ '.' :: (B ++ ['s'])).dropWhile isDig).head? = some '.' then _ else _) = _
  rw [ht, hd]
  rw [if_pos (show ('.' :: (B ++ ['s'])).head? = some '.' from rfl)]
  show parseTail A ((B ++ ['s']).takeWhile isDig) ((B ++ ['s']).dropWhile isDig) neg = none
  rw [ht2, hd2]
  exact parseTail_s A B neg

theorem parseDec_digit_head {A : List Char} (hA : ∀ c ∈ A, isDig c = true)
    (hne : A ≠ []) (rest : List Char) :
    parseDec (A ++ rest) = parseDecBody (A ++ rest) false := by
  obtain ⟨a, A', rfl⟩ := List.exists_cons_of_ne_nil hne
  have ha : isDig a = true := hA a (by simp)
  rw [parseDec]
  rw [List.cons_append]
  rw [if_neg (by simp; exact isDig_ne ha (by decide)), if_neg (by simp; exact isDig_ne ha (by decide))]

theorem parseDec_neg_head (X : List Char) :
    parseDec ('-' :: X) = parseDecBody X true := by
  rw [parseDec, if_neg (show ¬ ('-' :: X).head? = some '+' by simp),
    if_pos (show ('-' :: X).head? = some '-' from rfl)]
  rfl

theorem not_mem_of_cls {D : List Char}
    (hcls : ∀ c ∈ D, isDig c = true ∨ c = '.' ∨ c = '-' ∨ c = 's')
    (c : Char) (hdig : isDig c = false) (h1 : c ≠ '.') (h2 : c ≠ '-')
    (h3 : c ≠ 's') : c ∉ D := by
  intro hc
  rcases hcls c hc with h | h | h | h
  · rw [hdig] at h; cases h
  · exact h1 h
  · exact h2 h
  · exact h3 h

theorem jsNumber_shape {D : List Char}
    (hcls : ∀ c ∈ D, isDig c = true ∨ c = '.' ∨ c = '-')
    (hparse : parseDec (D ++ ['s']) = none) :
    jsNumber ⟨D ++ ['s']⟩ = .nan := by
  have hcls' : ∀ c ∈ D ++ ['s'], isDig c = true ∨ c = '.' ∨ c = '-' ∨ c = 's' := by
    intro c hc
    rcases List.mem_append.mp hc with h | h
    · rcases hcls c h with h1 | h1 | h1
      · exact Or.inl h1
      · exact Or.inr (Or.inl h1)
      · exact Or.inr (Or.inr (Or.inl h1))
    · rcases List.mem_singleton.mp h with rfl
      exact Or.inr (Or.inr (Or.inr rfl))
  have hnw : ∀ c ∈ D ++ ['s'], jsIsWs c = false := by
    intro c hc
    rcases hcls' c hc with h | h | h | h
    · exact isDig_not_ws h
    · rw [h]; rfl
    · rw [h]; rfl
    · rw [h]; rfl
  have hI := not_mem_of_cls hcls' 'I' (by decide) (by decide) (by decide) (by decide)
  have hx := not_mem_of_cls hcls' 'x' (by decide) (by decide) (by decide) (by decide)
  have hX := not_mem_of_cls hcls' 'X' (by decide) (by decide) (by decide) (by decide)
  have hb := not_mem_of_cls hcls' 'b' (by decide) (by decide) (by decide) (by decide)
  have hB := not_mem_of_cls hcls' 'B' (by decide) (by decide) (by decide) (by decide)
  have ho := not_mem_of_cls hcls' 'o' (by decide) (by decide) (by decide) (by decide)
  have hO := not_mem_of_cls hcls' 'O' (by decide) (by decide) (by decide) (by decide)
  have hpj : parseJsNumeric (D ++ ['s']) = none := by
    rw [parseJsNumeric,
      if_neg (by
        rintro (h | h)
        · exact hx (List.take_subset 2 _ (by rw [h]; decide))
        · exact hX (List.take_subset 2 _ (by rw [h]; decide))),
      if_neg (by
        rintro (h | h)
        · exact hb (List.take_subset 2 _ (by rw [h]; decide))
        · exact hB (List.take_subset 2 _ (by rw [h]; decide))),
      if_neg (by
        rintro (h | h)
        · exact ho (List.take_subset 2 _ (by rw [h]; decide))
        · exact hO (List.take_subset 2 _ (by rw [h]; decide)))]
    exact hparse
  simp only [jsNumber]
  rw [jsTrimData_noop hnw]
  rw [if_neg (by simp),
    if_neg (by
      rintro (h | h)
      · exact hI (by rw [h]; decide)
      · exact hI (by rw [h]; decide)),
    if_neg (by intro h; exact hI (by rw [h]; decide)),
    hpj]

theorem fixedNat_eq (n : ℕ) :
    fixedNat n = ⟨natToChars (n / 10) ++ ['.', digitChar (n % 10)]⟩ := by
  apply String.ext
  rw [fixedNat, String.data_append, String.data_append]
  simp

theorem mkStr_append_s (X : List Char) :
    (⟨X⟩ : String) ++ "s" = ⟨X ++ ['s']⟩ := by
  apply String.ext
  rw [String.data_append]

theorem jsNumber_toFixed_s (q : ℚ) :
    jsNumber (stripDot0 (jsToFixed1 (JsNum.num q)) ++ "s") = JsNum.nan := by
  rw [jsToFixed1]
  by_cases hq : q < 0
  · rw [if_pos hq]
    have hfx : ("-" : String) ++ fixedNat (natRound1 (qneg q)) =
        ⟨('-' :: natToChars (natRound1 (qneg q) / 10)) ++
          ['.', digitChar (natRound1 (qneg q) % 10)]⟩ := by
      rw [fixedNat_eq]
      apply String.ext
      rw [String.data_append]
      rfl
    rw [hfx, stripDot0_dot]
    by_cases hd : digitChar (natRound1 (qneg q) % 10) = '0'
    · rw [if_pos hd, mkStr_append_s]
      apply jsNumber_shape
      · intro c hc
        rcases List.mem_cons.mp hc with rfl | h
        · exact Or.inr (Or.inr rfl)
        · exact Or.inl (natToChars_digits _ c h)
      · rw [show ('-' :: natToChars (natRound1 (qneg q) / 10)) ++ ['s'] =
            '-' :: (natToChars (natRound1 (qneg q) / 10) ++ ['s']) from rfl,
          parseDec_neg_head]
        exact parseDecBody_digits_s (natToChars_digits _) true
    · rw [if_neg hd, mkStr_append_s]
      apply jsNumber_shape
      · intro c hc
        rcases List.mem_append.mp hc with h | h
        · rcases List.mem_cons.mp h with rfl | h1
          · exact Or.inr (Or.inr rfl)
          · exact Or.inl (natToChars_digits _ c h1)
        · rcases List.mem_cons.mp h with rfl | h1
          · exact Or.inr (Or.inl rfl)
          · rcases List.mem_singleton.mp h1 with rfl
            exact Or.inl (isDig_digitChar _)
      · have e : (('-' :: natToChars (natRound1 (qneg q) / 10)) ++
            ['.', digitChar (natRound1 (qneg q) % 10)]) ++ ['s'] =
            '-' :: (natToChars (natRound1 (qneg q) / 10) ++
              '.' :: ([digitChar (natRound1 (qneg q) % 10)] ++ ['s'])) := by
          simp
        rw [e, parseDec_neg_head]
        exact parseDecBody_digits_dot_s (natToChars_digits _)
          (by intro c hc; rcases List.mem_singleton.mp hc with rfl; exact isDig_digitChar _)
          true
  · rw [if_neg hq, fixedNat_eq, stripDot0_dot]
    by_cases hd : digitChar (natRound1 q % 10) = '0'
    · rw [if_pos hd, mkStr_append_s]
      apply jsNumber_shape
      · exact fun c hc => Or.inl (natToChars_digits _ c hc)
      · rw [parseDec_digit_head (natToChars_digits _) (natToChars_ne_nil _)]
        exact parseDecBody_digits_s (natToChars_digits _) false
    · rw [if_neg hd, mkStr_append_s]
      apply jsNumber_shape
      · intro c hc
        rcases List.mem_append.mp hc with h | h
        · exact Or.inl (natToChars_digits _ c h)
        · rcases List.mem_cons.mp h with rfl | h1
          · exact Or.inr (Or.inl rfl)
          · rcases List.mem_singleton.mp h1 with rfl
            exact Or.inl (isDig_digitChar _)
      · have e : (natToChars (natRound1 q / 10) ++ ['.', digitChar (natRound1 q % 10)]) ++
            ['s'] = natToChars (natRound1 q / 10) ++
              ('.' :: ([digitChar (natRound1 q % 10)] ++ ['s'])) := by
          simp
        rw [e, parseDec_digit_head (natToChars_digits _) (natToChars_ne_nil _)]
        exact parseDecBody_digits_dot_s (natToChars_digits _)
          (by intro c hc; rcases List.mem_singleton.mp hc with rfl; exact isDig_digitChar _)
          false

theorem toFixed1_no_slash (v : JsNum) : ∀ c ∈ (jsToFixed1 v).data, c ≠ '/' := by
  cases v with
  | nan => decide
  | inf => decide
  | ninf => decide
  | num q =>
    rw [jsToFixed1]
    by_cases hq : q < 0
    · rw [if_pos hq]
      intro c hc
      rw [String.data_append, fixedNat_eq] at hc
      rcases List.mem_append.mp hc with h | h
      · have e : ("-").data = ['-'] := rfl
        rw [e] at h
        rcases List.mem_singleton.mp h with rfl
        decide
      · rcases List.mem_append.mp h with h1 | h1
        · exact isDig_ne (natToChars_digits _ c h1) (by decide)
        · rcases List.mem_cons.mp h1 with rfl | h2
          · decide
          · rcases List.mem_singleton.mp h2 with rfl
            exact isDig_ne (isDig_digitChar _) (by decide)
    · rw [if_neg hq]
      intro c hc
      rw [fixedNat_eq] at hc
      rcases List.mem_append.mp hc with h1 | h1
      · exact isDig_ne (natToChars_digits _ c h1) (by decide)
      · rcases List.mem_cons.mp h1 with rfl | h2
        · decide
        · rcases List.mem_singleton.mp h2 with rfl
          exact isDig_ne (isDig_digitChar _) (by decide)

theorem jsIncludes_strip_toFixed (v : JsNum) :
    jsIncludes (stripDot0 (jsToFixed1 v)) '/' = false := by
  simp only [jsIncludes, decide_eq_false_iff_not]
  intro h
  exact toFixed1_no_slash v '/' (stripDot0_sub h) rfl

theorem jsIncludes_strip_toFixed_s (q : ℚ) :
    jsIncludes (stripDot0 (jsToFixed1 (JsNum.num q)) ++ "s") '/' = false := by
  simp only [jsIncludes, decide_eq_false_iff_not]
  intro hmem
  rw [String.data_append] at hmem
  rcases List.mem_append.mp hmem with h | h
  · exact toFixed1_no_slash _ '/' (stripDot0_sub h) rfl
  · have e : ("s").data = ['s'] := rfl
    rw [e] at h
    rcases List.mem_singleton.mp h with h1
    cases h1

theorem jsTruthyStr_append_s (x : String) : jsTruthyStr (x ++ "s") = true := by
  simp [jsTruthyStr, String.data_append]

theorem jsTruthyStr_one_slash (x : String) : jsTruthyStr ("1/" ++ x) = true := by
  simp [jsTruthyStr, String.data_append]

theorem jsIncludes_one_slash (x : String) : jsIncludes ("1/" ++ x) '/' = true := by
  have e : ("1/").data = ['1', '/'] := rfl
  simp [jsIncludes, String.data_append, e]

theorem rtf_truthy {s : String} {v : JsNum} (h : rationalToFloat s = some v) :
    jsTruthyStr s = true := by
  by_cases hs : jsTruthyStr s = true
  · exact hs
  · have hs' : jsTruthyStr s = false := by
      revert hs; cases jsTruthyStr s <;> simp
    rw [rationalToFloat, hs'] at h
    simp at h

theorem jsToString_intCast (i : ℤ) :
    jsToString (JsNum.num ((i : ℤ) : ℚ)) = intToString i := by
  rw [jsToString, intToString]
  by_cases hi : i < 0
  · have hq : ((i : ℤ) : ℚ) < 0 := by exact_mod_cast hi
    rw [if_pos hq, if_pos hi]
    have h1 : qneg ((i : ℤ) : ℚ) = (((-i : ℤ) : ℤ) : ℚ) := by
      rw [qneg_eq]; push_cast; ring
    rw [h1, posToString, if_pos (by rfl)]
    have h2 : (((-i : ℤ) : ℤ) : ℚ).num.toNat = i.natAbs := by
      rw [Rat.num_intCast]; omega
    rw [h2]
  · have hq : ¬ ((i : ℤ) : ℚ) < 0 := by exact_mod_cast hi
    rw [if_neg hq, if_neg hi, posToString, if_pos (by rfl)]
    rfl

/-! ## Claim theorems: metadata resolution -/

/-- C1: for every metadata query result whose direct f-number field is
empty but whose APEX aperture-value field parses to a number `q`,
`readExif` resolves the f-number to `sqrt(2)^q` (the abstract `F q`,
`F` interpreting `Math.pow(Math.SQRT2, ·)`) rounded to one decimal with a
trailing `".0"` stripped; and whenever the stage-one value is a rational
string containing `/` that parses to a number `r`, it is converted to a
decimal under the same rounding-and-strip rule.  The first conjunct ties
the resolution to the `readExif` record. -/
theorem claim_C1 (F P : ℚ → ℚ) (stdout fnum av : String) (q r : ℚ) :
    (readExif F P stdout).fNumber =
      resolveFNumber F (exifField stdout 1) (exifField stdout 2) ∧
    (jsTruthyStr fnum = false → rationalToFloat av = some (JsNum.num q) →
      resolveFNumber F fnum av = stripDot0 (jsToFixed1 (JsNum.num (F q)))) ∧
    (rationalToFloat (fnStage1 F fnum av) = some (JsNum.num r) →
      jsIncludes (fnStage1 F fnum av) '/' = true →
      resolveFNumber F fnum av = stripDot0 (jsToFixed1 (JsNum.num r))) := by
  refine ⟨rfl, ?_, ?_⟩
  · intro h1 h2
    have hav : jsTruthyStr av = true := rtf_truthy h2
    have hs1 : fnStage1 F fnum av = stripDot0 (jsToFixed1 (JsNum.num (F q))) := by
      rw [fnStage1, if_pos (by rw [h1, hav]; rfl), h2]
      rfl
    rw [resolveFNumber, hs1, fnStage2,
      if_neg (by rw [jsIncludes_strip_toFixed]; simp)]
  · intro h1 h2
    have ht : jsTruthyStr (fnStage1 F fnum av) = true := by
      simp only [jsIncludes, decide_eq_true_eq] at h2
      obtain ⟨a, t, he⟩ := List.exists_cons_of_ne_nil (List.ne_nil_of_mem h2)
      simp only [jsTruthyStr, he]
      rfl
    rw [resolveFNumber, fnStage2, if_pos (by rw [ht, h2]; rfl), h1]

/-- Witness for C1 at concrete inputs: aperture value `"2"` with the
abstract power function returning `4` resolves to `"4"`, and a direct
rational f-number `"28/10"` resolves to `"2.8"`. -/
theorem claim_C1_witness :
    resolveFNumber (fun _ => 4) "" "2" = "4" ∧
    resolveFNumber (fun _ => 4) "28/10" "" = "2.8" := by
  constructor
  · have h := (claim_C1 (fun _ => 4) (fun _ => 1) "" "" "2" 2 0).2.1
      (by decide) (by decide)
    exact h.trans (by decide)
  · have h := (claim_C1 (fun _ => 4) (fun _ => 1) "" "28/10" "" 0 (mkRat 14 5)).2.2
      (by decide) (by decide)
    exact h.trans (by decide)

/-- C2: for every metadata query result whose direct exposure-time field
is empty but whose APEX shutter-speed field parses to a number `tv`,
`readExif` resolves the exposure from `t = 2^(-tv)` (the abstract
`P (-tv)`, `P` interpreting `Math.pow(2, ·)`, hence the positivity
hypothesis): the string `"1/" ++ round (1 / t)` when `t < 1`, and `t`
rendered to one decimal with trailing `".0"` stripped followed by `"s"`
when `t ≥ 1`.  The first conjunct ties the resolution to the `readExif`
record. -/
theorem claim_C2 (F P : ℚ → ℚ) (stdout exp ssv : String) (tv : ℚ) :
    (readExif F P stdout).exposure =
      resolveExposure P (exifField stdout 3) (exifField stdout 4) ∧
    (jsTruthyStr exp = false → rationalToFloat ssv = some (JsNum.num tv) →
      0 < P (-tv) →
      resolveExposure P exp ssv =
        if P (-tv) < 1 then "1/" ++ intToString (jroundQ (1 / P (-tv)))
        else stripDot0 (jsToFixed1 (JsNum.num (P (-tv)))) ++ "s") := by
  refine ⟨rfl, ?_⟩
  intro h1 h2 h3
  have hssv : jsTruthyStr ssv = true := rtf_truthy h2
  have hneg : qneg tv = -tv := qneg_eq tv
  have hs1 : expStage1 P exp ssv =
      if jsLt (JsNum.num (P (qneg tv))) (JsNum.num 1) then
        "1/" ++ jsToString (jsRound (jsDiv (JsNum.num 1) (JsNum.num (P (qneg tv)))))
      else stripDot0 (jsToFixed1 (JsNum.num (P (qneg tv)))) ++ "s" := by
    rw [expStage1, if_pos (by rw [h1, hssv]; rfl), h2]
    rfl
  rw [resolveExposure, hs1, hneg]
  by_cases hlt : P (-tv) < 1
  · have hlt' : jsLt (JsNum.num (P (-tv))) (JsNum.num 1) = true := by
      simp [jsLt, hlt]
    rw [if_pos hlt', if_pos hlt, expStage2,
      if_neg (by rw [jsIncludes_one_slash]; simp)]
    congr 1
    have hT0 : P (-tv) ≠ 0 := ne_of_gt h3
    have hdiv : jsDiv (JsNum.num 1) (JsNum.num (P (-tv))) =
        JsNum.num (qdivE 1 (P (-tv))) := by
      rw [jsDiv, if_neg hT0]
    rw [hdiv, show jsRound (JsNum.num (qdivE 1 (P (-tv)))) =
        JsNum.num ((jroundQ (qdivE 1 (P (-tv))) : ℤ) : ℚ) from rfl,
      jsToString_intCast, qdivE_eq 1 (P (-tv)) hT0]
  · have hlt' : jsLt (JsNum.num (P (-tv))) (JsNum.num 1) = false := by
      simp [jsLt, hlt]
    rw [if_neg (by rw [hlt']; exact Bool.false_ne_true), if_neg hlt, expStage2,
      if_pos (by rw [jsTruthyStr_append_s, jsIncludes_strip_toFixed_s]; rfl),
      show jsNumber (stripDot0 (jsToFixed1 (JsNum.num (P (-tv)))) ++ "s") = JsNum.nan
        from jsNumber_toFixed_s (P (-tv))]
    rfl

/-- Witness for C2 at concrete inputs: with the abstract power returning
`1/2` (resp. `5/2`) on shutter-speed `"1"`, the exposure resolves to
`"1/2"` (resp. `"2.5s"`). -/
theorem claim_C2_witness :
    resolveExposure (fun _ => mkRat 1 2) "" "1" = "1/2" ∧
    resolveExposure (fun _ => mkRat 5 2) "" "1" = "2.5s" := by
  constructor
  · have h := (claim_C2 (fun _ => 1) (fun _ => mkRat 1 2) "" "" "1" 1).2
      (by decide) (by decide) (by decide)
    have h' : resolveExposure (fun _ => mkRat 1 2) "" "1" =
        if (mkRat 1 2 : ℚ) < 1 then "1/" ++ intToString (jroundQ (1 / (mkRat 1 2 : ℚ)))
        else stripDot0 (jsToFixed1 (JsNum.num (mkRat 1 2))) ++ "s" := h
    have e : (1 : ℚ) / (mkRat 1 2 : ℚ) = 2 := by
      rw [mkRatq_eq]; norm_num
    rw [e] at h'
    exact h'.trans (by decide)
  · have h := (claim_C2 (fun _ => 1) (fun _ => mkRat 5 2) "" "" "1" 1).2
      (by decide) (by decide) (by decide)
    exact h.trans (by decide)

/-- Counterexample to C3 as stated: the bare exposure value `"1.25"`
(`t = 5/4 ≥ 1`) is re-formatted by line 79 as `` `${t}s` `` giving
`"1.25s"`, while the claimed one-decimal rounding rule would give
`"1.3s"`. -/
theorem claim_C3_counterexample :
    resolveExposure (fun _ => 1) "1.25" "" = "1.25s" ∧
    stripDot0 (jsToFixed1 (JsNum.num (mkRat 5 4))) ++ "s" = "1.3s" ∧
    jsNumber "1.25" = JsNum.num (mkRat 5 4) ∧
    ("1.25s" : String) ≠ "1.3s" := by
  refine ⟨by decide, by decide, by decide, by decide⟩

/-- C3 (amended): for every resolved exposure value that contains no `/`
and parses as a finite positive number `t`, `readExif` re-formats it as
`"1/" ++ round (1 / t)` when `t < 1`, and as the default JS string
rendering of `t` (no one-decimal rounding) followed by `"s"` when
`t ≥ 1`. -/
theorem claim_C3 (P : ℚ → ℚ) (exp ssv : String) (t : ℚ)
    (h1 : jsTruthyStr exp = true) (h2 : jsIncludes exp '/' = false)
    (h3 : jsNumber exp = JsNum.num t) (h4 : 0 < t) :
    resolveExposure P exp ssv =
      if t < 1 then "1/" ++ intToString (jroundQ (1 / t))
      else jsToString (JsNum.num t) ++ "s" := by
  have hs1 : expStage1 P exp ssv = exp := by
    rw [expStage1, if_neg (by rw [h1]; simp)]
  rw [resolveExposure, hs1, expStage2, if_pos (by rw [h1, h2]; rfl), h3]
  show (if jsFinite (JsNum.num t) = true then
      if jsLt (JsNum.num t) (JsNum.num 1) = true then
        "1/" ++ jsToString (jsRound (jsDiv (JsNum.num 1) (JsNum.num t)))
      else jsToString (JsNum.num t) ++ "s"
    else exp) = _
  by_cases hlt : t < 1
  · have hlt' : jsLt (JsNum.num t) (JsNum.num 1) = true := by simp [jsLt, hlt]
    rw [show jsFinite (JsNum.num t) = true from rfl, if_pos rfl, if_pos hlt',
      if_pos hlt]
    congr 1
    have hT0 : t ≠ 0 := ne_of_gt h4
    have hdiv : jsDiv (JsNum.num 1) (JsNum.num t) = JsNum.num (qdivE 1 t) := by
      rw [jsDiv, if_neg hT0]
    rw [hdiv, show jsRound (JsNum.num (qdivE 1 t)) =
        JsNum.num ((jroundQ (qdivE 1 t) : ℤ) : ℚ) from rfl,
      jsToString_intCast, qdivE_eq 1 t hT0]
  · have hlt' : jsLt (JsNum.num t) (JsNum.num 1) = false := by simp [jsLt, hlt]
    rw [show jsFinite (JsNum.num t) = true from rfl, if_pos rfl,
      if_neg (by rw [hlt']; exact Bool.false_ne_true), if_neg hlt]

/-- Witness for the amended C3 at concrete inputs: `"1.25"` renders as
`"1.25s"` and `"0.005"` renders as `"1/200"`. -/
theorem claim_C3_witness :
    resolveExposure (fun _ => 1) "1.25" "" = "1.25s" ∧
    resolveExposure (fun _ => 1) "0.005" "" = "1/200" := by
  constructor
  · have h := claim_C3 (fun _ => 1) "1.25" "" (mkRat 5 4)
      (by decide) (by decide) (by decide) (by decide)
    exact h.trans (by decide)
  · have h := claim_C3 (fun _ => 1) "0.005" "" (mkRat 1 200)
      (by decide) (by decide) (by decide) (by decide)
    have e : (1 : ℚ) / (mkRat 1 200 : ℚ) = 200 := by
      rw [mkRatq_eq]; norm_num
    rw [e] at h
    exact h.trans (by decide)

/-- C6 divergence witness: on the metadata query output with an empty
f-number field and APEX aperture value `"x/2"`, `rationalToFloat`
returns `NaN` (not `null`), the `!= null` guard passes, and the record's
f-number becomes the string `"NaN"` instead of the empty string; the
model and other fields still default.  The `readExif` record is evaluated
at the failing input for every interpretation of the power functions. -/
theorem claim_C6 (F P : ℚ → ℚ) :
    readExif F P "||x/2||||" =
      { model := "Camera", fNumber := "NaN", exposure := "", iso := "" } ∧
    readExif F P "" =
      { model := "Camera", fNumber := "", exposure := "", iso := "" } := by
  exact ⟨rfl, rfl⟩

/-- C10 divergence witness: `rationalToFloat` returns `NaN` on `"x/2"`
(non-numeric numerator over a truthy denominator) and `Infinity` on
`"Infinity/2"`, contradicting the claim that it returns only `null` or a
finite number; the claim's own positive cases (`""`, `"3/0"`, `"abc"`
yield `null`) are confirmed alongside. -/
theorem claim_C10 :
    rationalToFloat "x/2" = some JsNum.nan ∧
    rationalToFloat "Infinity/2" = some JsNum.inf ∧
    rationalToFloat "" = none ∧
    rationalToFloat "3/0" = none ∧
    rationalToFloat "abc" = none := by
  refine ⟨by decide, by decide, by decide, by decide, by decide⟩

/-! ## Claim theorems: watermark geometry and text -/

/-- Counterexample to C4 as stated: a supplied override of `0` is falsy
under the `||` operator, so the point size is not the override but the
width-derived default (`28` for width `1000`). -/
theorem claim_C4_counterexample :
    (watermarkGeom 1000 500 (some 0)).ps = 28 ∧
    (watermarkGeom 1000 500 (some 0)).ps ≠ 0 := by
  refine ⟨by decide, by decide⟩

/-- C4 (amended): the point size equals a supplied override when it is
truthy (nonzero; a zero override falls back, JS `||`), and otherwise
`max 14 (round (w * 0.028))`; the bar height is
`max 50 (round (ps * 2.2))`; the bar top is `max 0 (h - barHeight)`, so
it clamps to `0` whenever `barHeight > h`; the computation is total. -/
theorem claim_C4 (w h : ℚ) (ov : Option ℚ) (o : ℚ) :
    (watermarkGeom w h none).ps = max 14 ((jroundQ (w * (28 / 1000)) : ℤ) : ℚ) ∧
    (o ≠ 0 → (watermarkGeom w h (some o)).ps = o) ∧
    (watermarkGeom w h ov).barHeight =
      max 50 ((jroundQ ((watermarkGeom w h ov).ps * (22 / 10)) : ℤ) : ℚ) ∧
    (watermarkGeom w h ov).y0 = max 0 (h - (watermarkGeom w h ov).barHeight) ∧
    ((watermarkGeom w h ov).barHeight > h → (watermarkGeom w h ov).y0 = 0) := by
  have e1 : (28 / 1000 : ℚ) = mkRat 28 1000 := by rw [mkRatq_eq]; norm_num
  have e2 : (22 / 10 : ℚ) = mkRat 22 10 := by rw [mkRatq_eq]; norm_num
  have h4 : (watermarkGeom w h ov).y0 =
      max 0 (h - (watermarkGeom w h ov).barHeight) := by
    simp only [watermarkGeom]
    rw [jmax_eq, qsub_eq]
  refine ⟨?_, ?_, ?_, h4, ?_⟩
  · simp only [watermarkGeom]
    rw [jmax_eq, qmul_eq, e1]
  · intro ho
    simp only [watermarkGeom]
    rw [if_neg ho]
  · simp only [watermarkGeom]
    rw [jmax_eq, qmul_eq, e2]
  · intro hgt
    rw [h4, max_eq_left (le_of_lt (sub_neg.mpr hgt))]

/-- Witness for C4 at concrete inputs: a truthy override `14` is used
as-is, and for a `512 × 40` probe the bar height `50` exceeds the image
height so the bar top clamps to `0`. -/
theorem claim_C4_witness :
    (watermarkGeom 1024 683 (some 14)).ps = 14 ∧
    (watermarkGeom 512 40 none).barHeight > (40 : ℚ) ∧
    (watermarkGeom 512 40 none).y0 = 0 := by
  refine ⟨?_, by decide, ?_⟩
  · exact (claim_C4 1024 683 (some 14) 14).2.1 (by decide)
  · exact (claim_C4 512 40 none 0).2.2.2.2 (by decide)

/-- C5: the watermark text is exactly the join, by the fixed three-space
separator, of the present-only fragments in order: the camera fragment
always, then the f-number, exposure and ISO fragments exactly when the
field is non-empty; an empty field contributes nothing.  The second
conjunct checks the documented example record. -/
theorem claim_C5 (m : MetadataRecord) :
    wmText m = myIntercalate "   "
      (["📷 " ++ m.model] ++
        (if jsTruthyStr m.fNumber = true then ["● f/" ++ m.fNumber] else []) ++
        (if jsTruthyStr m.exposure = true then ["● " ++ m.exposure] else []) ++
        (if jsTruthyStr m.iso = true then ["● ISO " ++ m.iso] else [])) ∧
    wmText { model := "Camera", fNumber := "", exposure := "1/200", iso := "400" } =
      "📷 Camera   ● 1/200   ● ISO 400" := by
  constructor
  · have hm : jsTruthyStr ("📷 " ++ m.model) = true := by
      simp [jsTruthyStr, String.data_append]
    rw [wmText, wmParts, jsFilterBoolean]
    cases hf : jsTruthyStr m.fNumber <;> cases he : jsTruthyStr m.exposure <;>
      cases hi : jsTruthyStr m.iso <;>
      simp [hf, he, hi, hm, myIntercalate]
  · decide

/-! ## Generic lemmas about `runSeq` -/

theorem runSeq_tags {σ : Type} (ok : σ → Bool) (msg : σ → String)
    (src dst : σ → String) (l : List σ) :
    ∃ n, ((runSeq ok msg src dst l).1.filterMap stepTag) = l.take n := by
  induction l with
  | nil => exact ⟨0, rfl⟩
  | cons s rest ih =>
    rw [runSeq]
    by_cases h : ok s
    · rw [if_pos h]
      obtain ⟨n, hn⟩ := ih
      exact ⟨n + 1, by simp [stepTag, hn]⟩
    · rw [if_neg h]
      exact ⟨1, by simp [stepTag]⟩

theorem runSeq_runs {σ : Type} (ok : σ → Bool) (msg : σ → String)
    (src dst : σ → String) (l : List σ) :
    ∀ a ∈ (runSeq ok msg src dst l).1,
      ∃ s b, a = Act.run s (src s) (dst s) b ∧ s ∈ l := by
  induction l with
  | nil => intro a ha; cases ha
  | cons s rest ih =>
    intro a ha
    rw [runSeq] at ha
    by_cases h : ok s
    · rw [if_pos h] at ha
      rcases List.mem_cons.mp ha with rfl | ha1
      · exact ⟨s, true, rfl, by simp⟩
      · obtain ⟨t, b, he, hm⟩ := ih a ha1
        exact ⟨t, b, he, by simp [hm]⟩
    · rw [if_neg h] at ha
      rcases List.mem_singleton.mp ha with rfl
      exact ⟨s, false, rfl, by simp⟩

theorem runSeq_no_writes {σ : Type} (ok : σ → Bool) (msg : σ → String)
    (src dst : σ → String) (l : List σ) :
    writesOf (runSeq ok msg src dst l).1 = [] := by
  induction l with
  | nil => rfl
  | cons s rest ih =>
    rw [runSeq]
    by_cases h : ok s
    · rw [if_pos h]
      simpa [writesOf] using ih
    · rw [if_neg h]
      rfl

theorem runSeq_success {σ : Type} (ok : σ → Bool) (msg : σ → String)
    (src dst : σ → String) (l : List σ)
    (h : (runSeq ok msg src dst l).2 = none) :
    (runSeq ok msg src dst l).1 =
      l.map (fun s => Act.run s (src s) (dst s) true) := by
  induction l with
  | nil => rfl
  | cons s rest ih =>
    rw [runSeq] at h ⊢
    by_cases hok : ok s
    · rw [if_pos hok] at h ⊢
      simp only [List.map_cons, List.cons.injEq]
      exact ⟨trivial, ih h⟩
    · rw [if_neg hok] at h
      cases h

theorem runSeq_head_count {σ : Type} [DecidableEq σ] (ok : σ → Bool)
    (msg : σ → String) (src dst : σ → String) (s : σ) (rest : List σ)
    (hs : s ∉ rest) :
    ((runSeq ok msg src dst (s :: rest)).1.filterMap stepTag).count s = 1 := by
  rw [runSeq]
  by_cases h : ok s
  · rw [if_pos h]
    obtain ⟨n, hn⟩ := runSeq_tags ok msg src dst rest
    simp only [List.filterMap_cons, stepTag, hn]
    rw [List.count_cons_self]
    rw [List.count_eq_zero_of_not_mem (fun hm => hs (List.take_subset n rest hm))]
  · rw [if_neg h]
    simp [stepTag]

/-! ## Trace-level lemmas for the watermark task -/

theorem writesOf_append {σ : Type} (l1 l2 : List (Act σ)) :
    writesOf (l1 ++ l2) = writesOf l1 ++ writesOf l2 := by
  simp [writesOf, List.filter_append]

theorem primaryTrace_snd (e : Env) (f : String) :
    (primaryTrace e f).2 = (runSeq e.ok e.msg (pSrc f) (pDst f) primarySteps).2 := by
  rw [primaryTrace]
  rcases hr : runSeq e.ok e.msg (pSrc f) (pDst f) primarySteps with ⟨tr, r⟩
  cases r <;> rfl

theorem primaryTrace_tags (e : Env) (f : String) :
    ∃ n, ((primaryTrace e f).1.filterMap stepTag) = primarySteps.take n := by
  rw [primaryTrace]
  rcases hr : runSeq e.ok e.msg (pSrc f) (pDst f) primarySteps with ⟨tr, r⟩
  obtain ⟨n, hn⟩ := runSeq_tags e.ok e.msg (pSrc f) (pDst f) primarySteps
  rw [hr] at hn
  cases r with
  | none =>
    refine ⟨n, ?_⟩
    show ((tr ++ _).filterMap stepTag) = _
    rw [List.filterMap_append, hn]
    simp [stepTag]
  | some m => exact ⟨n, hn⟩

theorem primaryTrace_no_writes (e : Env) (f : String) :
    writesOf (primaryTrace e f).1 = [] := by
  rw [primaryTrace]
  rcases hr : runSeq e.ok e.msg (pSrc f) (pDst f) primarySteps with ⟨tr, r⟩
  have hw := runSeq_no_writes e.ok e.msg (pSrc f) (pDst f) primarySteps
  rw [hr] at hw
  cases r with
  | none =>
    show writesOf (tr ++ _) = []
    rw [writesOf_append, hw]
    rfl
  | some m => exact hw

theorem processFile_success (e : Env) (f : String)
    (h : (primaryTrace e f).2 = none) : processFile e f = (primaryTrace e f).1 := by
  rw [processFile]
  rcases hp : primaryTrace e f with ⟨tp, rp⟩
  rw [hp] at h
  cases rp with
  | none => rfl
  | some m => exact absurd h (by simp)

theorem processFile_fb_ok (e : Env) (f : String) (m : String)
    (h1 : (primaryTrace e f).2 = some m) (h2 : (fallbackTrace e f).2 = none) :
    processFile e f = (primaryTrace e f).1 ++ (fallbackTrace e f).1 := by
  rw [processFile]
  rcases hp : primaryTrace e f with ⟨tp, rp⟩
  rcases hq : fallbackTrace e f with ⟨tf, rf⟩
  rw [hp] at h1
  rw [hq] at h2
  cases rp with
  | none => exact absurd h1 (by simp)
  | some m1 =>
    cases rf with
    | none => rfl
    | some m2 => exact absurd h2 (by simp)

theorem processFile_fb_fail (e : Env) (f : String) (m m2 : String)
    (h1 : (primaryTrace e f).2 = some m) (h2 : (fallbackTrace e f).2 = some m2) :
    processFile e f = (primaryTrace e f).1 ++ (fallbackTrace e f).1 ++
      [Act.write (outFullP f) (errPayload f m), Act.write (outThumbP f) (errPayload f m)] := by
  rw [processFile]
  rcases hp : primaryTrace e f with ⟨tp, rp⟩
  rcases hq : fallbackTrace e f with ⟨tf, rf⟩
  rw [hp] at h1
  rw [hq] at h2
  cases rp with
  | none => exact absurd h1 (by simp)
  | some m1 =>
    cases rf with
    | none => exact absurd h2 (by simp)
    | some m2' =>
      have hm : m1 = m := by simpa using h1
      subst hm
      rfl

theorem primary_count_r2 (e : Env) (f : String) :
    ((primaryTrace e f).1.filterMap stepTag).count PStep.readMeta2 = 0 := by
  obtain ⟨n, hn⟩ := primaryTrace_tags e f
  rw [hn]
  exact List.count_eq_zero_of_not_mem
    (fun hm => absurd (List.take_subset n primarySteps hm) (by decide))

theorem fallback_count_r2 (e : Env) (f : String) :
    ((fallbackTrace e f).1.filterMap stepTag).count PStep.readMeta2 = 1 := by
  rw [fallbackTrace, show fallbackSteps = PStep.readMeta2 ::
      [PStep.fbResizeFull, PStep.fbResizeThumb, PStep.fbWatermarkFull,
        PStep.fbWatermarkThumb] from rfl]
  exact runSeq_head_count _ _ _ _ _ _ (by decide)

theorem pf_r2_one (e : Env) (f : String) (h : (primaryTrace e f).2.isSome = true) :
    ((processFile e f).filterMap stepTag).count PStep.readMeta2 = 1 := by
  obtain ⟨m, hm⟩ := Option.isSome_iff_exists.mp h
  rcases hf : (fallbackTrace e f).2 with _ | m2
  · rw [processFile_fb_ok e f m hm hf, List.filterMap_append, List.count_append,
      primary_count_r2, fallback_count_r2]
  · rw [processFile_fb_fail e f m m2 hm hf, List.filterMap_append,
      List.filterMap_append, List.count_append, List.count_append,
      primary_count_r2, fallback_count_r2]
    simp [stepTag]

theorem pf_r2_zero (e : Env) (f : String) (h : (primaryTrace e f).2 = none) :
    ((processFile e f).filterMap stepTag).count PStep.readMeta2 = 0 := by
  rw [processFile_success e f h, primary_count_r2]

theorem pf_writes_both_fail (e : Env) (f : String) (m m2 : String)
    (h1 : (primaryTrace e f).2 = some m) (h2 : (fallbackTrace e f).2 = some m2) :
    writesOf (processFile e f) =
      [Act.write (outFullP f) (errPayload f m),
        Act.write (outThumbP f) (errPayload f m)] := by
  rw [processFile_fb_fail e f m m2 h1 h2, writesOf_append, writesOf_append,
    primaryTrace_no_writes,
    show (fallbackTrace e f).1 = (runSeq e.ok e.msg (pSrc f) (pDst f) fallbackSteps).1
      from rfl, runSeq_no_writes]
  rfl

theorem pf_writes_success (e : Env) (f : String)
    (h : (primaryTrace e f).2 = none) : writesOf (processFile e f) = [] := by
  rw [processFile_success e f h, primaryTrace_no_writes]

theorem pf_writes_fb_ok (e : Env) (f : String) (m : String)
    (h1 : (primaryTrace e f).2 = some m) (h2 : (fallbackTrace e f).2 = none) :
    writesOf (processFile e f) = [] := by
  rw [processFile_fb_ok e f m h1 h2, writesOf_append, primaryTrace_no_writes,
    show (fallbackTrace e f).1 = (runSeq e.ok e.msg (pSrc f) (pDst f) fallbackSteps).1
      from rfl, runSeq_no_writes]
  rfl

theorem pf_nodup (e : Env) (f : String) :
    ((processFile e f).filterMap stepTag).Nodup := by
  have hdisj : ∀ s : PStep, s ∈ primarySteps → s ∈ fallbackSteps → False := by decide
  obtain ⟨n, hn⟩ := primaryTrace_tags e f
  obtain ⟨k, hk⟩ := runSeq_tags e.ok e.msg (pSrc f) (pDst f) fallbackSteps
  have hA : (primarySteps.take n).Nodup :=
    List.Nodup.sublist (List.take_sublist n primarySteps) (by decide)
  have hB : (fallbackSteps.take k).Nodup :=
    List.Nodup.sublist (List.take_sublist k fallbackSteps) (by decide)
  have hAB : (primarySteps.take n ++ fallbackSteps.take k).Nodup := by
    refine List.Nodup.append hA hB ?_
    intro a ha1 ha2
    exact hdisj a (List.take_subset n primarySteps ha1)
      (List.take_subset k fallbackSteps ha2)
  rcases hp : (primaryTrace e f).2 with _ | m
  · rw [processFile_success e f hp, hn]
    exact hA
  · rcases hf : (fallbackTrace e f).2 with _ | m2
    · rw [processFile_fb_ok e f m hp hf, List.filterMap_append, hn]
      rw [show (fallbackTrace e f).1 = (runSeq e.ok e.msg (pSrc f) (pDst f) fallbackSteps).1
        from rfl, hk]
      exact hAB
    · rw [processFile_fb_fail e f m m2 hp hf, List.filterMap_append,
        List.filterMap_append, hn]
      rw [show (fallbackTrace e f).1 = (runSeq e.ok e.msg (pSrc f) (pDst f) fallbackSteps).1
        from rfl, hk]
      simpa [stepTag] using hAB

/-! ## Trace-level lemmas for the plain task -/

theorem cPrimaryTrace_tags (e : CEnv) (f : String) :
    ∃ n, ((cPrimaryTrace e f).1.filterMap stepTag) = cPrimarySteps.take n := by
  rw [cPrimaryTrace]
  rcases hr : runSeq e.ok e.msg (cSrc f) (cDst f) cPrimarySteps with ⟨tr, r⟩
  obtain ⟨n, hn⟩ := runSeq_tags e.ok e.msg (cSrc f) (cDst f) cPrimarySteps
  rw [hr] at hn
  cases r with
  | none =>
    refine ⟨n, ?_⟩
    show ((tr ++ _).filterMap stepTag) = _
    rw [List.filterMap_append, hn]
    simp [stepTag]
  | some m => exact ⟨n, hn⟩

theorem cPrimaryTrace_no_writes (e : CEnv) (f : String) :
    writesOf (cPrimaryTrace e f).1 = [] := by
  rw [cPrimaryTrace]
  rcases hr : runSeq e.ok e.msg (cSrc f) (cDst f) cPrimarySteps with ⟨tr, r⟩
  have hw := runSeq_no_writes e.ok e.msg (cSrc f) (cDst f) cPrimarySteps
  rw [hr] at hw
  cases r with
  | none =>
    show writesOf (tr ++ _) = []
    rw [writesOf_append, hw]
    rfl
  | some m => exact hw

theorem cProcessFile_success (e : CEnv) (f : String)
    (h : (cPrimaryTrace e f).2 = none) : cProcessFile e f = (cPrimaryTrace e f).1 := by
  rw [cProcessFile]
  rcases hp : cPrimaryTrace e f with ⟨tp, rp⟩
  rw [hp] at h
  cases rp with
  | none => rfl
  | some m => exact absurd h (by simp)

theorem cProcessFile_fb_ok (e : CEnv) (f : String) (m : String)
    (h1 : (cPrimaryTrace e f).2 = some m) (h2 : (cFallbackTrace e f).2 = none) :
    cProcessFile e f = (cPrimaryTrace e f).1 ++ (cFallbackTrace e f).1 := by
  rw [cProcessFile]
  rcases hp : cPrimaryTrace e f with ⟨tp, rp⟩
  rcases hq : cFallbackTrace e f with ⟨tf, rf⟩
  rw [hp] at h1
  rw [hq] at h2
  cases rp with
  | none => exact absurd h1 (by simp)
  | some m1 =>
    cases rf with
    | none => rfl
    | some m2 => exact absurd h2 (by simp)

theorem cProcessFile_fb_fail (e : CEnv) (f : String) (m m2 : String)
    (h1 : (cPrimaryTrace e f).2 = some m) (h2 : (cFallbackTrace e f).2 = some m2) :
    cProcessFile e f = (cPrimaryTrace e f).1 ++ (cFallbackTrace e f).1 ++
      [Act.write (outFullP f) (errPayload f m), Act.write (outThumbP f) (errPayload f m)] := by
  rw [cProcessFile]
  rcases hp : cPrimaryTrace e f with ⟨tp, rp⟩
  rcases hq : cFallbackTrace e f with ⟨tf, rf⟩
  rw [hp] at h1
  rw [hq] at h2
  cases rp with
  | none => exact absurd h1 (by simp)
  | some m1 =>
    cases rf with
    | none => exact absurd h2 (by simp)
    | some m2' =>
      have hm : m1 = m := by simpa using h1
      subst hm
      rfl

theorem cPrimary_count_fb (e : CEnv) (f : String) :
    ((cPrimaryTrace e f).1.filterMap stepTag).count CStep.fbResizeFull = 0 := by
  obtain ⟨n, hn⟩ := cPrimaryTrace_tags e f
  rw [hn]
  exact List.count_eq_zero_of_not_mem
    (fun hm => absurd (List.take_subset n cPrimarySteps hm) (by decide))

theorem cFallback_count_fb (e : CEnv) (f : String) :
    ((cFallbackTrace e f).1.filterMap stepTag).count CStep.fbResizeFull = 1 := by
  rw [cFallbackTrace, show cFallbackSteps = CStep.fbResizeFull ::
      [CStep.fbResizeThumb] from rfl]
  exact runSeq_head_count _ _ _ _ _ _ (by decide)

theorem cpf_fb_one (e : CEnv) (f : String) (h : (cPrimaryTrace e f).2.isSome = true) :
    ((cProcessFile e f).filterMap stepTag).count CStep.fbResizeFull = 1 := by
  obtain ⟨m, hm⟩ := Option.isSome_iff_exists.mp h
  rcases hf : (cFallbackTrace e f).2 with _ | m2
  · rw [cProcessFile_fb_ok e f m hm hf, List.filterMap_append, List.count_append,
      cPrimary_count_fb, cFallback_count_fb]
  · rw [cProcessFile_fb_fail e f m m2 hm hf, List.filterMap_append,
      List.filterMap_append, List.count_append, List.count_append,
      cPrimary_count_fb, cFallback_count_fb]
    simp [stepTag]

theorem cpf_fb_zero (e : CEnv) (f : String) (h : (cPrimaryTrace e f).2 = none) :
    ((cProcessFile e f).filterMap stepTag).count CStep.fbResizeFull = 0 := by
  rw [cProcessFile_success e f h, cPrimary_count_fb]

theorem cpf_writes_both_fail (e : CEnv) (f : String) (m m2 : String)
    (h1 : (cPrimaryTrace e f).2 = some m) (h2 : (cFallbackTrace e f).2 = some m2) :
    writesOf (cProcessFile e f) =
      [Act.write (outFullP f) (errPayload f m),
        Act.write (outThumbP f) (errPayload f m)] := by
  rw [cProcessFile_fb_fail e f m m2 h1 h2, writesOf_append, writesOf_append,
    cPrimaryTrace_no_writes,
    show (cFallbackTrace e f).1 = (runSeq e.ok e.msg (cSrc f) (cDst f) cFallbackSteps).1
      from rfl, runSeq_no_writes]
  rfl

theorem cpf_nodup (e : CEnv) (f : String) :
    ((cProcessFile e f).filterMap stepTag).Nodup := by
  have hdisj : ∀ s : CStep, s ∈ cPrimarySteps → s ∈ cFallbackSteps → False := by decide
  obtain ⟨n, hn⟩ := cPrimaryTrace_tags e f
  obtain ⟨k, hk⟩ := runSeq_tags e.ok e.msg (cSrc f) (cDst f) cFallbackSteps
  have hA : (cPrimarySteps.take n).Nodup :=
    List.Nodup.sublist (List.take_sublist n cPrimarySteps) (by decide)
  have hB : (cFallbackSteps.take k).Nodup :=
    List.Nodup.sublist (List.take_sublist k cFallbackSteps) (by decide)
  have hAB : (cPrimarySteps.take n ++ cFallbackSteps.take k).Nodup := by
    refine List.Nodup.append hA hB ?_
    intro a ha1 ha2
    exact hdisj a (List.take_subset n cPrimarySteps ha1)
      (List.take_subset k cFallbackSteps ha2)
  rcases hp : (cPrimaryTrace e f).2 with _ | m
  · rw [cProcessFile_success e f hp, hn]
    exact hA
  · rcases hf : (cFallbackTrace e f).2 with _ | m2
    · rw [cProcessFile_fb_ok e f m hp hf, List.filterMap_append, hn]
      rw [show (cFallbackTrace e f).1 = (runSeq e.ok e.msg (cSrc f) (cDst f) cFallbackSteps).1
        from rfl, hk]
      exact hAB
    · rw [cProcessFile_fb_fail e f m m2 hp hf, List.filterMap_append,
        List.filterMap_append, hn]
      rw [show (cFallbackTrace e f).1 = (runSeq e.ok e.msg (cSrc f) (cDst f) cFallbackSteps).1
        from rfl, hk]
      simpa [stepTag] using hAB

/-! ## Claim theorems: pipeline failure semantics -/

/-- C7: for every per-file environment, in both `resize-images` tasks:
if any primary-path step throws, the fallback block is entered exactly
once (its first step, the metadata re-read resp. the first fallback
resize, appears exactly once in the trace); if the fallback also throws,
exactly the plain-text payload `"ERROR PROCESSING: {file}\n{primary
error message}"` is written to both the full-tier and thumb-tier paths,
and nothing is written otherwise; each source step location executes at
most once per file (`Nodup` of the step tags - the metadata read has two
distinct locations, lines 152 and 174, so it is retried at most once and
nothing is retried more); and the file loop processes the next file
regardless of the outcome. -/
theorem claim_C7 (e : Env) (f : String) (ec : CEnv) :
    ((primaryTrace e f).2.isSome = true →
      ((processFile e f).filterMap stepTag).count PStep.readMeta2 = 1) ∧
    ((primaryTrace e f).2 = none →
      ((processFile e f).filterMap stepTag).count PStep.readMeta2 = 0) ∧
    (∀ m m2, (primaryTrace e f).2 = some m → (fallbackTrace e f).2 = some m2 →
      writesOf (processFile e f) =
        [Act.write (outFullP f) (errPayload f m),
          Act.write (outThumbP f) (errPayload f m)]) ∧
    ((primaryTrace e f).2 = none → writesOf (processFile e f) = []) ∧
    (∀ m, (primaryTrace e f).2 = some m → (fallbackTrace e f).2 = none →
      writesOf (processFile e f) = []) ∧
    ((processFile e f).filterMap stepTag).Nodup ∧
    (∀ (E : String → Env) (g : String) (rest : List String),
      processAll E (g :: rest) = processFile (E g) g ++ processAll E rest) ∧
    ((cPrimaryTrace ec f).2.isSome = true →
      ((cProcessFile ec f).filterMap stepTag).count CStep.fbResizeFull = 1) ∧
    ((cPrimaryTrace ec f).2 = none →
      ((cProcessFile ec f).filterMap stepTag).count CStep.fbResizeFull = 0) ∧
    (∀ m m2, (cPrimaryTrace ec f).2 = some m → (cFallbackTrace ec f).2 = some m2 →
      writesOf (cProcessFile ec f) =
        [Act.write (outFullP f) (errPayload f m),
          Act.write (outThumbP f) (errPayload f m)]) ∧
    ((cProcessFile ec f).filterMap stepTag).Nodup ∧
    (∀ (E : String → CEnv) (g : String) (rest : List String),
      cProcessAll E (g :: rest) = cProcessFile (E g) g ++ cProcessAll E rest) := by
  refine ⟨pf_r2_one e f, pf_r2_zero e f,
    fun m m2 h1 h2 => pf_writes_both_fail e f m m2 h1 h2,
    pf_writes_success e f,
    fun m h1 h2 => pf_writes_fb_ok e f m h1 h2,
    pf_nodup e f,
    fun E g rest => rfl,
    cpf_fb_one ec f, cpf_fb_zero ec f,
    fun m m2 h1 h2 => cpf_writes_both_fail ec f m m2 h1 h2,
    cpf_nodup ec f,
    fun E g rest => rfl⟩

/-- Witness for C7: with the normalize step and the fallback thumb
watermark failing (resp. convert and the fallback full resize in the
plain task), the fallback is entered once and the placeholder payload is
written to both tiers; with every step succeeding, nothing is written. -/
theorem claim_C7_witness :
    ((processFile envDoubleFail "a.jpg").filterMap stepTag).count PStep.readMeta2 = 1 ∧
    writesOf (processFile envDoubleFail "a.jpg") =
      [Act.write (outFullP "a.jpg") (errPayload "a.jpg" "boom"),
        Act.write (outThumbP "a.jpg") (errPayload "a.jpg" "boom")] ∧
    ((cProcessFile cEnvDoubleFail "a.jpg").filterMap stepTag).count CStep.fbResizeFull = 1 ∧
    writesOf (cProcessFile cEnvDoubleFail "a.jpg") =
      [Act.write (outFullP "a.jpg") (errPayload "a.jpg" "cboom"),
        Act.write (outThumbP "a.jpg") (errPayload "a.jpg" "cboom")] ∧
    writesOf (processFile envAllOk "a.jpg") = [] := by
  obtain ⟨c1, c2, c3, c4, c5, c6, c7, c8, c9, c10, c11, c12⟩ :=
    claim_C7 envDoubleFail "a.jpg" cEnvDoubleFail
  refine ⟨c1 (by decide), c3 "boom" "boom" (by decide) (by decide),
    c8 (by decide), c10 "cboom" "cboom" (by decide) (by decide), ?_⟩
  exact (claim_C7 envAllOk "a.jpg" cEnvAllOk).2.2.2.1 (by decide)

/-! ## Claim theorems: temporary-file cleanup (C8) -/

theorem ne_of_len {a b : String} (h : a.length ≠ b.length) : a ≠ b :=
  fun he => h (he ▸ rfl)

theorem path_len (f : String) :
    (origP f).length = 7 + f.length ∧ (tempP f).length = 12 + f.length ∧
    (tempFullP f).length = 17 + f.length ∧ (tempThumbP f).length = 18 + f.length ∧
    (outFullP f).length = 13 + f.length ∧ (outThumbP f).length = 14 + f.length := by
  refine ⟨?_, ?_, ?_, ?_, ?_, ?_⟩ <;>
    · simp [origP, tempP, tempFullP, tempThumbP, outFullP, outThumbP,
        String.length_append]
      rfl

theorem primaryTrace_success_fst (e : Env) (f : String)
    (hr : (runSeq e.ok e.msg (pSrc f) (pDst f) primarySteps).2 = none) :
    (primaryTrace e f).1 = (runSeq e.ok e.msg (pSrc f) (pDst f) primarySteps).1 ++
      [Act.unlink (tempP f), Act.unlink (tempFullP f), Act.unlink (tempThumbP f)] := by
  rw [primaryTrace]
  rcases hrr : runSeq e.ok e.msg (pSrc f) (pDst f) primarySteps with ⟨tr, r⟩
  rw [hrr] at hr
  cases r with
  | none => rfl
  | some m => exact absurd hr (by simp)

theorem cPrimaryTrace_success_fst (e : CEnv) (f : String)
    (hr : (runSeq e.ok e.msg (cSrc f) (cDst f) cPrimarySteps).2 = none) :
    (cPrimaryTrace e f).1 = (runSeq e.ok e.msg (cSrc f) (cDst f) cPrimarySteps).1 ++
      [Act.unlink (tempP f)] := by
  rw [cPrimaryTrace]
  rcases hrr : runSeq e.ok e.msg (cSrc f) (cDst f) cPrimarySteps with ⟨tr, r⟩
  rw [hrr] at hr
  cases r with
  | none => rfl
  | some m => exact absurd hr (by simp)

theorem cPrimaryTrace_snd (e : CEnv) (f : String) :
    (cPrimaryTrace e f).2 = (runSeq e.ok e.msg (cSrc f) (cDst f) cPrimarySteps).2 := by
  rw [cPrimaryTrace]
  rcases hr : runSeq e.ok e.msg (cSrc f) (cDst f) cPrimarySteps with ⟨tr, r⟩
  cases r <;> rfl

theorem pf_success_leftover (e : Env) (f : String)
    (h : (primaryTrace e f).2 = none) : leftoverTemps (processFile e f) f = [] := by
  have hr : (runSeq e.ok e.msg (pSrc f) (pDst f) primarySteps).2 = none := by
    rw [← primaryTrace_snd]; exact h
  obtain ⟨ho, ht, htf, htt, hof, hot⟩ := path_len f
  rw [processFile_success e f h, primaryTrace_success_fst e f hr,
    runSeq_success e.ok e.msg (pSrc f) (pDst f) primarySteps hr,
    show primarySteps = [PStep.readMeta1, PStep.verify, PStep.normalize,
      PStep.resizeFull, PStep.resizeThumb, PStep.watermarkFull, PStep.copyThumb]
      from rfl]
  simp only [List.map_cons, List.map_nil, leftoverTemps, filesAfter,
    List.foldl_append, List.foldl_cons, List.foldl_nil, filesAfterStep,
    pCreates, pSrc, pDst, tempsOf]
  simp [List.erase_cons]
  exact ⟨⟨ne_of_len (by omega), ne_of_len (by omega), ne_of_len (by omega)⟩,
    ne_of_len (by omega), ne_of_len (by omega), ne_of_len (by omega)⟩

theorem cpf_success_leftover (e : CEnv) (f : String)
    (h : (cPrimaryTrace e f).2 = none) :
    cLeftoverTemps (cProcessFile e f) f = [] := by
  have hr : (runSeq e.ok e.msg (cSrc f) (cDst f) cPrimarySteps).2 = none := by
    rw [← cPrimaryTrace_snd]; exact h
  obtain ⟨ho, ht, htf, htt, hof, hot⟩ := path_len f
  rw [cProcessFile_success e f h, cPrimaryTrace_success_fst e f hr,
    runSeq_success e.ok e.msg (cSrc f) (cDst f) cPrimarySteps hr,
    show cPrimarySteps = [CStep.verify, CStep.convert, CStep.resizeFull,
      CStep.resizeThumb] from rfl]
  simp only [List.map_cons, List.map_nil, cLeftoverTemps, filesAfter,
    List.foldl_append, List.foldl_cons, List.foldl_nil, filesAfterStep,
    cCreates, cSrc, cDst]
  simp [List.erase_cons]
  exact ⟨ne_of_len (by omega), ne_of_len (by omega)⟩

/-- Counterexample to C8 as stated: when the primary watermark step
fails after the three temporaries were created, the `catch` branch never
unlinks them (the cleanup of line 169 sits inside the `try`), so they
survive the file's processing. -/
theorem claim_C8_counterexample :
    leftoverTemps (processFile envFailWm "a.jpg") "a.jpg" =
      ["images/temp_a.jpg", "images/temp_full_a.jpg", "images/temp_thumb_a.jpg"] ∧
    leftoverTemps (processFile envFailWm "a.jpg") "a.jpg" ≠ [] := by
  refine ⟨by decide, by decide⟩

/-- C8 (amended): in both tasks, when the primary path completes, every
temporary intermediate created for the file is unlinked by the time its
processing ends; when the primary path fails mid-way, the per-file
handler does not remove them (they are left for the separate `delete`
task's `images/temp_*` sweep). -/
theorem claim_C8 (e : Env) (ec : CEnv) (f : String) :
    ((primaryTrace e f).2 = none → leftoverTemps (processFile e f) f = []) ∧
    ((cPrimaryTrace ec f).2 = none → cLeftoverTemps (cProcessFile ec f) f = []) := by
  exact ⟨pf_success_leftover e f, cpf_success_leftover ec f⟩

/-- Witness for the amended C8: with every step succeeding, no temporary
file survives, in either task. -/
theorem claim_C8_witness :
    leftoverTemps (processFile envAllOk "a.jpg") "a.jpg" = [] ∧
    cLeftoverTemps (cProcessFile cEnvAllOk "a.jpg") "a.jpg" = [] := by
  exact ⟨(claim_C8 envAllOk cEnvAllOk "a.jpg").1 (by decide),
    (claim_C8 envAllOk cEnvAllOk "a.jpg").2 (by decide)⟩

/-! ## Claim theorems: metadata is read from the original (C9) -/

theorem primaryTrace_mem (e : Env) (f : String) (a : Act PStep)
    (h : a ∈ (primaryTrace e f).1) :
    a ∈ (runSeq e.ok e.msg (pSrc f) (pDst f) primarySteps).1 ∨
      a = Act.unlink (tempP f) ∨ a = Act.unlink (tempFullP f) ∨
      a = Act.unlink (tempThumbP f) := by
  rw [primaryTrace] at h
  rcases hr : runSeq e.ok e.msg (pSrc f) (pDst f) primarySteps with ⟨tr, r⟩
  rw [hr] at h
  cases r with
  | none =>
    rcases List.mem_append.mp h with h1 | h1
    · left; exact h1
    · right; simpa using h1
  | some m =>
    left; exact h

theorem processFile_run_paths (e : Env) (f : String) :
    ∀ (s : PStep) (src dst : String) (b : Bool),
      Act.run s src dst b ∈ processFile e f → src = pSrc f s ∧ dst = pDst f s := by
  intro s src dst b ha
  have key : ∀ l, Act.run s src dst b ∈ (runSeq e.ok e.msg (pSrc f) (pDst f) l).1 →
      src = pSrc f s ∧ dst = pDst f s := by
    intro l hmem
    obtain ⟨t, b', he, _⟩ := runSeq_runs e.ok e.msg (pSrc f) (pDst f) l _ hmem
    injection he with h1 h2 h3 h4
    subst h1
    exact ⟨h2, h3⟩
  rw [processFile] at ha
  rcases hp : primaryTrace e f with ⟨tp, rp⟩
  rw [hp] at ha
  cases rp with
  | none =>
    have hm : Act.run s src dst b ∈ (primaryTrace e f).1 := by rw [hp]; exact ha
    rcases primaryTrace_mem e f _ hm with h1 | h1 | h1 | h1
    · exact key primarySteps h1
    all_goals simp at h1
  | some m =>
    rcases hq : fallbackTrace e f with ⟨tf, rf⟩
    rw [hq] at ha
    cases rf with
    | none =>
      rcases List.mem_append.mp ha with h1 | h1
      · have hm : Act.run s src dst b ∈ (primaryTrace e f).1 := by rw [hp]; exact h1
        rcases primaryTrace_mem e f _ hm with h2 | h2 | h2 | h2
        · exact key primarySteps h2
        all_goals simp at h2
      · have hm : Act.run s src dst b ∈ (fallbackTrace e f).1 := by rw [hq]; exact h1
        exact key fallbackSteps hm
    | some m2 =>
      rcases List.mem_append.mp ha with h1 | h1
      · rcases List.mem_append.mp h1 with h2 | h2
        · have hm : Act.run s src dst b ∈ (primaryTrace e f).1 := by rw [hp]; exact h2
          rcases primaryTrace_mem e f _ hm with h3 | h3 | h3 | h3
          · exact key primarySteps h3
          all_goals simp at h3
        · have hm : Act.run s src dst b ∈ (fallbackTrace e f).1 := by rw [hq]; exact h2
          exact key fallbackSteps hm
      · simp at h1

/-- C9: in every environment, both metadata reads (the primary read of
line 152 and the fallback re-read of line 174) take the original file
path as input, the normalize step reads the original and writes the
distinct temporary path, and the temporary path never equals the
original, so a `MetadataRecord` is never derived from a normalized or
stripped intermediate. -/
theorem claim_C9 (e : Env) (f : String) :
    (∀ src dst b, Act.run PStep.readMeta1 src dst b ∈ processFile e f →
      src = origP f) ∧
    (∀ src dst b, Act.run PStep.readMeta2 src dst b ∈ processFile e f →
      src = origP f) ∧
    (∀ src dst b, Act.run PStep.normalize src dst b ∈ processFile e f →
      src = origP f ∧ dst = tempP f) ∧
    tempP f ≠ origP f := by
  refine ⟨?_, ?_, ?_, ?_⟩
  · intro src dst b h
    exact (processFile_run_paths e f _ src dst b h).1
  · intro src dst b h
    exact (processFile_run_paths e f _ src dst b h).1
  · intro src dst b h
    exact processFile_run_paths e f _ src dst b h
  · obtain ⟨ho, ht, _⟩ := path_len f
    exact ne_of_len (by omega)

/-- Witness for C9: in the all-success environment the primary metadata
read appears in the trace with the original path as its source, and the
temporary path differs from the original. -/
theorem claim_C9_witness :
    (Act.run PStep.readMeta1 (origP "a.jpg") (origP "a.jpg") true ∈
      processFile envAllOk "a.jpg") ∧
    origP "a.jpg" = "images/a.jpg" ∧
    tempP "a.jpg" ≠ origP "a.jpg" := by
  refine ⟨by decide, ?_, (claim_C9 envAllOk "a.jpg").2.2.2⟩
  have h := (claim_C9 envAllOk "a.jpg").1 "images/a.jpg" "images/a.jpg" true (by decide)
  exact h.symm
